import Mathlib

set_option autoImplicit false

/-!
Verification of the SNIProxy-rs core parsing and pooling routines.

The Rust sources are shallowly embedded: byte slices become `List Nat`
(each element a byte value), slice indexing `record[i]` becomes a checked
read `rd record i : Option Nat` whose `none` models the Rust panic on an
out-of-bounds index, and range slicing `record[lo..hi]` becomes
`slice? record lo hi`.  A function that can panic therefore returns its
Rust result wrapped in one more `Option` layer, `none` meaning the Rust
code would have panicked.  Fallible Rust functions return `Except`.
-/

/-- Checked read of byte `i`, the embedding of `record[i]` (Rust panics
out of bounds, which is the `none` case). -/
def rd (record : List Nat) (i : Nat) : Option Nat := record.get? i

/-- Checked range slice, the embedding of `&record[lo..hi]`. -/
def slice? (record : List Nat) (lo hi : Nat) : Option (List Nat) :=
  if lo ≤ hi ∧ hi ≤ record.length then some ((record.drop lo).take (hi - lo)) else none

/-- Big-endian 16-bit value from two bytes, `(hi << 8) | lo`. -/
def u16be (hi lo : Nat) : Nat := hi * 256 + lo

/-- The embedding of `l.starts_with(pat)` on byte slices. -/
def leadsWith (pat l : List Nat) : Bool := l.take pat.length == pat

/-- The embedding of substring containment (`str::contains` with an ASCII
needle is byte-subsequence containment). -/
def hasSub (pat : List Nat) : List Nat → Bool
  | [] => pat == []
  | c :: rest => leadsWith pat (c :: rest) || hasSub pat rest

/-- The embedding of `l.ends_with(pat)` on byte slices. -/
def tailIs (pat l : List Nat) : Bool :=
  decide (pat.length ≤ l.length) && l.drop (l.length - pat.length) == pat

/-- ASCII lower-casing of one byte. -/
def lowerByte (b : Nat) : Nat := if 65 ≤ b ∧ b ≤ 90 then b + 32 else b

/-- Is the byte a UTF-8 continuation byte (`0x80..=0xBF`)? -/
def isCont (c : Nat) : Bool := decide (128 ≤ c ∧ c ≤ 191)

/-- UTF-8 validity of a byte sequence, the embedding of
`std::str::from_utf8(..).is_ok()` (RFC 3629: no overlongs, no surrogates,
nothing above U+10FFFF). -/
def utf8Valid : List Nat → Bool
  | [] => true
  | b :: rest =>
    if b ≤ 0x7F then utf8Valid rest
    else if 0xC2 ≤ b ∧ b ≤ 0xDF then
      match rest with
      | c1 :: rest1 => isCont c1 && utf8Valid rest1
      | [] => false
    else if b = 0xE0 then
      match rest with
      | c1 :: c2 :: rest2 => decide (0xA0 ≤ c1 ∧ c1 ≤ 0xBF) && isCont c2 && utf8Valid rest2
      | _ => false
    else if 0xE1 ≤ b ∧ b ≤ 0xEC then
      match rest with
      | c1 :: c2 :: rest2 => isCont c1 && isCont c2 && utf8Valid rest2
      | _ => false
    else if b = 0xED then
      match rest with
      | c1 :: c2 :: rest2 => decide (0x80 ≤ c1 ∧ c1 ≤ 0x9F) && isCont c2 && utf8Valid rest2
      | _ => false
    else if 0xEE ≤ b ∧ b ≤ 0xEF then
      match rest with
      | c1 :: c2 :: rest2 => isCont c1 && isCont c2 && utf8Valid rest2
      | _ => false
    else if b = 0xF0 then
      match rest with
      | c1 :: c2 :: c3 :: rest3 =>
        decide (0x90 ≤ c1 ∧ c1 ≤ 0xBF) && isCont c2 && isCont c3 && utf8Valid rest3
      | _ => false
    else if 0xF1 ≤ b ∧ b ≤ 0xF3 then
      match rest with
      | c1 :: c2 :: c3 :: rest3 => isCont c1 && isCont c2 && isCont c3 && utf8Valid rest3
      | _ => false
    else if b = 0xF4 then
      match rest with
      | c1 :: c2 :: c3 :: rest3 =>
        decide (0x80 ≤ c1 ∧ c1 ≤ 0x8F) && isCont c2 && isCont c3 && utf8Valid rest3
      | _ => false
    else false

/-! ## `sniproxy-core/src/lib.rs`: `extract_sni` -/

/-- The error type of `extract_sni` (source: `SniError` in
`sniproxy-core/src/lib.rs`). -/
inductive SniError where
  | MessageTruncated
  | InvalidHandshakeType
  | InvalidTlsVersion
  | InvalidClientHello
  | InvalidSniFormat
deriving DecidableEq, Repr

/-- The inner `while pos + 3 <= extensions_end` loop of `extract_sni`
that walks the server_name entries.  `.inl r` is a `return r` of the Rust
function, `.inr pos` means the loop fell through with cursor `pos`.
The last argument is recursion fuel; the cursor advances by at least 3
per iteration, so fuel `ee + 1` can never run out (the exhaustion case
returns the panic sentinel `none` and is proved unreachable). -/
def sniNameLoop (record : List Nat) (ee : Nat) :
    Nat → Nat → Option (Except SniError (List Nat) ⊕ Nat)
  | _pos, 0 => none
  | pos, fuel + 1 =>
    if pos + 3 ≤ ee then
      match rd record pos, rd record (pos + 1), rd record (pos + 2) with
      | some name_type, some b1, some b2 =>
        let name_length := u16be b1 b2
        if pos + 3 + name_length > ee then
          some (.inl (.error .MessageTruncated))
        else if name_type = 0 then
          match slice? record (pos + 3) (pos + 3 + name_length) with
          | some name =>
            if utf8Valid name then some (.inl (.ok name))
            else some (.inl (.error .InvalidSniFormat))
          | none => none
        else
          sniNameLoop record ee (pos + 3 + name_length) fuel
      | _, _, _ => none
    else some (.inr pos)

/-- The outer `while pos + 4 <= extensions_end` loop of `extract_sni`
over the extensions.  When the inner loop falls through at `pos2` the
Rust `while` re-tests its condition at `pos2`.  Fueled as `sniNameLoop`;
each iteration moves the cursor strictly forward, so fuel `ee + 1` can
never run out. -/
def sniExtLoop (record : List Nat) (ee : Nat) :
    Nat → Nat → Option (Except SniError (List Nat))
  | _pos, 0 => none
  | pos, fuel + 1 =>
    if pos + 4 ≤ ee then
      match rd record pos, rd record (pos + 1), rd record (pos + 2), rd record (pos + 3) with
      | some t1, some t2, some l1, some l2 =>
        let extension_type := u16be t1 t2
        let extension_length := u16be l1 l2
        if extension_type = 0 then
          -- SNI_EXTENSION
          if pos + 4 + extension_length > ee then
            some (.error .MessageTruncated)
          else if extension_length < 2 then
            some (.error .InvalidSniFormat)
          else
            match rd record (pos + 4), rd record (pos + 5) with
            | some s1, some s2 =>
              let sni_list_length := u16be s1 s2
              if sni_list_length + 2 > extension_length then
                some (.error .InvalidSniFormat)
              else
                match sniNameLoop record ee (pos + 6) (ee + 1) with
                | some (.inl r) => some r
                | some (.inr pos2) => sniExtLoop record ee pos2 fuel
                | none => none
            | _, _ => none
        else
          sniExtLoop record ee (pos + 4 + extension_length) fuel
      | _, _, _, _ => none
    else some (.error .InvalidSniFormat)

/-- The embedding of `extract_sni` (`sniproxy-core/src/lib.rs`).  The
result is the returned hostname as its UTF-8 bytes; the outer `Option`
is the panic layer (always `some`, proved separately). -/
def extract_sni (record : List Nat) : Option (Except SniError (List Nat)) :=
  if record.length < 5 then some (.error .MessageTruncated) else
  match rd record 0, rd record 1, rd record 3, rd record 4 with
  | some b0, some b1, some r3, some r4 =>
    if b0 ≠ 22 then some (.error .InvalidHandshakeType) else
    if b1 ≠ 3 then some (.error .InvalidTlsVersion) else
    let record_length := u16be r3 r4
    if record.length < record_length + 5 then some (.error .MessageTruncated) else
    -- handshake_start = 5
    if record.length < 5 + 4 then some (.error .MessageTruncated) else
    match rd record 5, rd record 6, rd record 7, rd record 8 with
    | some b5, some h1, some h2, some h3 =>
      if b5 ≠ 1 then some (.error .InvalidClientHello) else
      let handshake_length := h1 * 65536 + h2 * 256 + h3
      if record.length < 5 + 4 + handshake_length then some (.error .MessageTruncated) else
      -- skip version (2) and random (32)
      let pos := 5 + 4 + 2 + 32
      if record.length < pos + 1 then some (.error .MessageTruncated) else
      match rd record pos with
      | some session_id_length =>
        let pos := pos + 1 + session_id_length
        if record.length < pos + 2 then some (.error .MessageTruncated) else
        match rd record pos, rd record (pos + 1) with
        | some c1, some c2 =>
          let pos := pos + 2 + u16be c1 c2
          if record.length < pos + 1 then some (.error .MessageTruncated) else
          match rd record pos with
          | some compression_methods_length =>
            let pos := pos + 1 + compression_methods_length
            if record.length < pos + 2 then some (.error .MessageTruncated) else
            match rd record pos, rd record (pos + 1) with
            | some e1, some e2 =>
              let extensions_length := u16be e1 e2
              let pos := pos + 2
              if record.length < pos + extensions_length then
                some (.error .MessageTruncated)
              else
                sniExtLoop record (pos + extensions_length) pos (pos + extensions_length + 1)
            | _, _ => none
          | none => none
        | _, _ => none
      | none => none
    | _, _, _, _ => none
  | _, _, _, _ => none

/-! ## `sniproxy-core/src/lib.rs`: `extract_alpn` -/

/-- The `while pos + 4 <= extensions_end` loop of `extract_alpn` over the
extensions (ALPN extension type is `0x0010`).  The inner `Option` is the
function's result; fueled like `sniExtLoop`. -/
def alpnExtLoop (record : List Nat) (ee : Nat) :
    Nat → Nat → Option (Option (List Nat))
  | _pos, 0 => none
  | pos, fuel + 1 =>
    if pos + 4 ≤ ee then
      match rd record pos, rd record (pos + 1), rd record (pos + 2), rd record (pos + 3) with
      | some t1, some t2, some l1, some l2 =>
        let extension_type := u16be t1 t2
        let extension_length := u16be l1 l2
        if extension_type = 16 then
          -- ALPN_EXTENSION
          if pos + 4 + extension_length > ee ∨ extension_length < 2 then some none
          else
            match rd record (pos + 4), rd record (pos + 5) with
            | some a1, some a2 =>
              let alpn_list_length := u16be a1 a2
              if alpn_list_length + 2 > extension_length ∨ pos + 6 + alpn_list_length > ee then
                some none
              else if pos + 6 < ee then
                match rd record (pos + 6) with
                | some protocol_length =>
                  if pos + 7 + protocol_length ≤ ee then
                    match slice? record (pos + 7) (pos + 7 + protocol_length) with
                    | some protocol =>
                      if utf8Valid protocol then some (some protocol) else some none
                    | none => none
                  else some none
                | none => none
              else some none
            | _, _ => none
        else alpnExtLoop record ee (pos + 4 + extension_length) fuel
      | _, _, _, _ => none
    else some none

/-- The embedding of `extract_alpn` (`sniproxy-core/src/lib.rs`): first
ALPN protocol of a ClientHello, as its UTF-8 bytes.  Outer `Option` is
the panic layer, inner `Option` the function's own result. -/
def extract_alpn (record : List Nat) : Option (Option (List Nat)) :=
  -- handshake_start = 5; ensure enough bytes for basic validation
  if record.length < 5 + 4 then some none else
  match rd record 0, rd record 5 with
  | some b0, some b5 =>
    if b0 ≠ 22 ∨ b5 ≠ 1 then some none else
    match rd record 6, rd record 7, rd record 8 with
    | some h1, some h2, some h3 =>
      let handshake_length := h1 * 65536 + h2 * 256 + h3
      if record.length < 5 + 4 + handshake_length then some none else
      -- skip version (2) and random (32)
      let pos := 5 + 4 + 2 + 32
      if record.length < pos + 1 then some none else
      match rd record pos with
      | some session_id_length =>
        let pos := pos + 1 + session_id_length
        if record.length < pos + 2 then some none else
        match rd record pos, rd record (pos + 1) with
        | some c1, some c2 =>
          let pos := pos + 2 + u16be c1 c2
          if record.length < pos + 1 then some none else
          match rd record pos with
          | some compression_methods_length =>
            let pos := pos + 1 + compression_methods_length
            if record.length < pos + 2 then some none else
            match rd record pos, rd record (pos + 1) with
            | some e1, some e2 =>
              let extensions_length := u16be e1 e2
              let pos := pos + 2
              if record.length < pos + extensions_length then some none
              else alpnExtLoop record (pos + extensions_length) pos (pos + extensions_length + 1)
            | _, _ => none
          | none => none
        | _, _ => none
      | none => none
    | _, _, _ => none
  | _, _ => none

/-! ## `sniproxy-core/src/http.rs` -/

/-- The error type of the HTTP helpers (source: `HttpError` in
`sniproxy-core/src/http.rs`; `Io` stands for any `HttpError::Io(_)`). -/
inductive HttpError where
  | Io
  | NoHostHeader
  | InvalidRequest
  | WebSocketUpgradeFailed
  | Http2FrameError
  | GrpcDetectionFailed
  | Timeout
deriving DecidableEq, Repr

/-- Scan helper of `find_headers_end`: first index (plus 4) at which
`\r\n\r\n` starts, mirroring `buffer.windows(4).position(..)`. -/
def fheScan : List Nat → Nat → Option Nat
  | l, i =>
    if leadsWith [13, 10, 13, 10] l then some (i + 4)
    else
      match l with
      | [] => none
      | _ :: rest => fheScan rest (i + 1)

/-- The embedding of `find_headers_end` (`sniproxy-core/src/http.rs`):
position just past the first `\r\n\r\n`. -/
def find_headers_end (buffer : List Nat) : Option Nat := fheScan buffer 0

/-- UTF-8 decoding into (codepoint, encoded bytes) pairs; `none` when the
bytes are not valid UTF-8.  Same case analysis as `utf8Valid`. -/
def utf8Chars : List Nat → Option (List (Nat × List Nat))
  | [] => some []
  | b :: rest =>
    if b ≤ 0x7F then (utf8Chars rest).map (fun cs => (b, [b]) :: cs)
    else if 0xC2 ≤ b ∧ b ≤ 0xDF then
      match rest with
      | c1 :: rest1 =>
        if isCont c1 then
          (utf8Chars rest1).map (fun cs => ((b - 0xC0) * 64 + (c1 - 0x80), [b, c1]) :: cs)
        else none
      | [] => none
    else if b = 0xE0 then
      match rest with
      | c1 :: c2 :: rest2 =>
        if decide (0xA0 ≤ c1 ∧ c1 ≤ 0xBF) && isCont c2 then
          (utf8Chars rest2).map
            (fun cs => ((c1 - 0x80) * 64 + (c2 - 0x80), [b, c1, c2]) :: cs)
        else none
      | _ => none
    else if 0xE1 ≤ b ∧ b ≤ 0xEC then
      match rest with
      | c1 :: c2 :: rest2 =>
        if isCont c1 && isCont c2 then
          (utf8Chars rest2).map
            (fun cs => ((b - 0xE0) * 4096 + (c1 - 0x80) * 64 + (c2 - 0x80), [b, c1, c2]) :: cs)
        else none
      | _ => none
    else if b = 0xED then
      match rest with
      | c1 :: c2 :: rest2 =>
        if decide (0x80 ≤ c1 ∧ c1 ≤ 0x9F) && isCont c2 then
          (utf8Chars rest2).map
            (fun cs => ((b - 0xE0) * 4096 + (c1 - 0x80) * 64 + (c2 - 0x80), [b, c1, c2]) :: cs)
        else none
      | _ => none
    else if 0xEE ≤ b ∧ b ≤ 0xEF then
      match rest with
      | c1 :: c2 :: rest2 =>
        if isCont c1 && isCont c2 then
          (utf8Chars rest2).map
            (fun cs => ((b - 0xE0) * 4096 + (c1 - 0x80) * 64 + (c2 - 0x80), [b, c1, c2]) :: cs)
        else none
      | _ => none
    else if b = 0xF0 then
      match rest with
      | c1 :: c2 :: c3 :: rest3 =>
        if decide (0x90 ≤ c1 ∧ c1 ≤ 0xBF) && isCont c2 && isCont c3 then
          (utf8Chars rest3).map
            (fun cs =>
              ((b - 0xF0) * 262144 + (c1 - 0x80) * 4096 + (c2 - 0x80) * 64 + (c3 - 0x80),
                [b, c1, c2, c3]) :: cs)
        else none
      | _ => none
    else if 0xF1 ≤ b ∧ b ≤ 0xF3 then
      match rest with
      | c1 :: c2 :: c3 :: rest3 =>
        if isCont c1 && isCont c2 && isCont c3 then
          (utf8Chars rest3).map
            (fun cs =>
              ((b - 0xF0) * 262144 + (c1 - 0x80) * 4096 + (c2 - 0x80) * 64 + (c3 - 0x80),
                [b, c1, c2, c3]) :: cs)
        else none
      | _ => none
    else if b = 0xF4 then
      match rest with
      | c1 :: c2 :: c3 :: rest3 =>
        if decide (0x80 ≤ c1 ∧ c1 ≤ 0x8F) && isCont c2 && isCont c3 then
          (utf8Chars rest3).map
            (fun cs =>
              ((b - 0xF0) * 262144 + (c1 - 0x80) * 4096 + (c2 - 0x80) * 64 + (c3 - 0x80),
                [b, c1, c2, c3]) :: cs)
        else none
      | _ => none
    else none

/-- The Unicode `White_Space` property, as used by Rust `char::is_whitespace`. -/
def isRustWhitespace (cp : Nat) : Bool :=
  decide ((9 ≤ cp ∧ cp ≤ 13) ∨ cp = 32 ∨ cp = 0x85 ∨ cp = 0xA0 ∨ cp = 0x1680 ∨
    (0x2000 ≤ cp ∧ cp ≤ 0x200A) ∨ cp = 0x2028 ∨ cp = 0x2029 ∨ cp = 0x202F ∨
    cp = 0x205F ∨ cp = 0x3000)

/-- The embedding of `str::trim` on the UTF-8 bytes of a string: drop
leading and trailing whitespace characters.  The `none` fallback is
unreachable in context (`extract_host_header` only trims substrings of a
block it has already decoded). -/
def rustTrim (s : List Nat) : List Nat :=
  match utf8Chars s with
  | none => s
  | some cs =>
    let front := cs.dropWhile (fun p => isRustWhitespace p.1)
    let both := (front.reverse.dropWhile (fun p => isRustWhitespace p.1)).reverse
    (both.map Prod.snd).flatten

/-- Split a byte sequence at every `\n` (byte 10), keeping empty pieces. -/
def splitNl : List Nat → List (List Nat)
  | [] => [[]]
  | 10 :: rest => [] :: splitNl rest
  | c :: rest =>
    match splitNl rest with
    | h :: t => (c :: h) :: t
    | [] => [[c]]

/-- Strip one trailing `\r` (byte 13), as `str::lines` does per line. -/
def stripCr (l : List Nat) : List Nat := if l.getLast? = some 13 then l.dropLast else l

/-- The embedding of `str::lines` on the UTF-8 bytes of a string. -/
def rustLines (s : List Nat) : List (List Nat) :=
  if s = [] then []
  else
    let ps := splitNl s
    let ps := if s.getLast? = some 10 then ps.dropLast else ps
    ps.map stripCr

/-- Byte-wise `eq_ignore_ascii_case`. -/
def eqIgnoreAsciiCase (a b : List Nat) : Bool := a.map lowerByte == b.map lowerByte

/-- The bytes of the string `host:`. -/
def hostColonBytes : List Nat := [104, 111, 115, 116, 58]

/-- The line scan of `extract_host_header`: the Rust code slices
`line[..5]` after checking only `line.len() > 5`, so it panics (outer
`none`) when byte 5 of the line is a UTF-8 continuation byte, i.e. not a
char boundary.  On a match it returns the value after `host:`, trimmed. -/
def hostLineScan : List (List Nat) → Option (Option (List Nat))
  | [] => some none
  | line :: rest =>
    if 5 < line.length then
      if isCont (line.getD 5 0) then none
      else if eqIgnoreAsciiCase (line.take 5) hostColonBytes then
        some (some (rustTrim (line.drop 5)))
      else hostLineScan rest
    else hostLineScan rest

/-- The embedding of `extract_host_header` (`sniproxy-core/src/http.rs`):
decode the header block as UTF-8 (failing to `None`), then scan its lines
for the first `host:`-prefixed one.  Outer `Option` is the panic layer. -/
def extract_host_header (headers : List Nat) : Option (Option (List Nat)) :=
  if utf8Valid headers then hostLineScan (rustLines headers) else some none

/-- The read loop of `extract_host` (`sniproxy-core/src/http.rs`).  The
stream is modelled as the list of chunks successive `read` calls return;
an exhausted list or an empty chunk is a zero-length read (EOF), on which
the source fails `InvalidRequest`.  `READ_BUFFER_SIZE * 2 = 32768`. -/
def extract_host_loop : List (List Nat) → List Nat → Nat →
    Option (Except HttpError (List Nat × Nat))
  | [], _, _ => some (.error .InvalidRequest)
  | chunk :: rest, buffer, total_read =>
    if chunk = [] then some (.error .InvalidRequest)
    else
      let buffer := buffer ++ chunk
      let total_read := total_read + chunk.length
      match find_headers_end buffer with
      | some headers_end =>
        match extract_host_header (buffer.take headers_end) with
        | some (some host) => some (.ok (host, total_read))
        | some none => some (.error .NoHostHeader)
        | none => none
      | none =>
        if total_read > 16384 * 2 then some (.error .InvalidRequest)
        else extract_host_loop rest buffer total_read

/-- The embedding of `extract_host`: starts with an empty buffer and a
zero byte count. -/
def extract_host (chunks : List (List Nat)) : Option (Except HttpError (List Nat × Nat)) :=
  extract_host_loop chunks [] 0

/-! ## `sniproxy-core/src/http.rs`: HTTP/2 `:authority` extraction -/

/-- Valid hostname characters of `is_valid_hostname`: ASCII alphanumeric
or one of `.`, `-`, `:`, `_`. -/
def hostCharOk (b : Nat) : Bool :=
  decide ((48 ≤ b ∧ b ≤ 57) ∨ (65 ≤ b ∧ b ≤ 90) ∨ (97 ≤ b ∧ b ≤ 122) ∨
    b = 46 ∨ b = 45 ∨ b = 58 ∨ b = 95)

/-- The embedding of `is_valid_hostname` (`sniproxy-core/src/http.rs`) on
the UTF-8 bytes of the candidate string.  The source checks every `char`
of the string; on the allowed all-ASCII alphabet the char-level and
byte-level checks coincide (any non-ASCII char starts with a byte
`≥ 0xC2`, which `hostCharOk` rejects, and `.`/`:` bytes never occur
inside a multi-byte character). -/
def is_valid_hostname (s : List Nat) : Bool :=
  !s.isEmpty && decide (s.length ≤ 253) && s.all hostCharOk &&
    (s.contains 46 || s.contains 58)

/-- The embedding of `extract_authority_value` (`sniproxy-core/src/http.rs`):
length-prefixed hostname-shaped value at the head of `data`. -/
def extract_authority_value (data : List Nat) : Option (List Nat) :=
  match data with
  | [] => none
  | len :: rest =>
    if !decide (3 ≤ len ∧ len ≤ 255) then none
    else if len + 1 > (len :: rest).length then none
    else
      -- data[1..=len]
      let bytes := rest.take len
      if utf8Valid bytes && is_valid_hostname bytes then some bytes else none

/-- Index of the first occurrence of `pat` in `l` (the embedding of
`windows(n).position(..)` for an `n`-byte pattern). -/
def findSubIdx (pat : List Nat) : List Nat → Nat → Option Nat
  | l, i =>
    if leadsWith pat l then some i
    else
      match l with
      | [] => none
      | _ :: rest => findSubIdx pat rest (i + 1)

/-- The bytes of the literal `:authority`. -/
def authorityBytes : List Nat := [58, 97, 117, 116, 104, 111, 114, 105, 116, 121]

/-- The `for offset in 0..remaining.len().min(10)` loop after the literal
`:authority` was found: try `extract_authority_value` at each offset.
The first argument counts the remaining offsets to try. -/
def authOffsetScan (remaining : List Nat) : Nat → Nat → Option (List Nat)
  | 0, _ => none
  | count + 1, offset =>
    match extract_authority_value (remaining.drop offset) with
    | some a => some a
    | none => authOffsetScan remaining count (offset + 1)

/-- First heuristic of `extract_http2_authority`: literal `:authority`
scan, then a length-prefixed value within the next 10 offsets. -/
def authLiteralScan (payload : List Nat) : Option (List Nat) :=
  match findSubIdx authorityBytes payload 0 with
  | some pos =>
    let value_start := pos + 10
    if value_start < payload.length then
      authOffsetScan (payload.drop value_start) (min (payload.length - value_start) 10) 0
    else none
  | none => none

/-- Second heuristic of `extract_http2_authority`: the
`for i in 0..payload.len().saturating_sub(20)` scan for a static-index
sentinel byte (0x01, 0x81 or 0x41) followed by a dotted or coloned
hostname-shaped value.  The first argument counts the remaining indices. -/
def authIndexScan (payload : List Nat) : Nat → Nat → Option (List Nat)
  | 0, _ => none
  | count + 1, i =>
    let b := payload.getD i 0
    if b = 1 ∨ b = 0x81 ∨ b = 0x41 then
      match extract_authority_value (payload.drop (i + 1)) with
      | some a =>
        if a.contains 46 || a.contains 58 then some a
        else authIndexScan payload count (i + 1)
      | none => authIndexScan payload count (i + 1)
    else authIndexScan payload count (i + 1)

/-- The embedding of `extract_http2_authority` (`sniproxy-core/src/http.rs`).
The stream is modelled as the byte list it would deliver; a stream too
short for `read_exact` is the `Io` error (standing for the IO/timeout
failure).  On success: the authority bytes and the forwarded frame bytes
(9-byte header plus payload). -/
def extract_http2_authority (input : List Nat) :
    Except HttpError (List Nat × List Nat) :=
  if input.length < 9 then .error .Io
  else
    let frame_header := input.take 9
    let frame_length :=
      (frame_header.getD 0 0) * 65536 + (frame_header.getD 1 0) * 256 + frame_header.getD 2 0
    let frame_type := frame_header.getD 3 0
    if frame_type ≠ 1 then .error .Http2FrameError
    else if frame_length = 0 ∨ frame_length > 16384 then .error .Http2FrameError
    else if input.length < 9 + frame_length then .error .Io
    else
      let payload := (input.drop 9).take frame_length
      let frame_data := frame_header ++ payload
      match authLiteralScan payload with
      | some authority => .ok (authority, frame_data)
      | none =>
        match authIndexScan payload (payload.length - 20) 0 with
        | some authority => .ok (authority, frame_data)
        | none => .error .Http2FrameError

/-! ## `sniproxy-core/src/connection.rs`: protocol detection -/

/-- The protocol tags `detect_protocol` can produce (source:
`Protocol` in `sniproxy-core/src/protocol_detector.rs`; the variants not
reachable from `detect_protocol` are omitted). -/
inductive Protocol where
  | Http10
  | Http11
  | Http2
  | Ssh
  | Tls
  | Unknown
deriving DecidableEq, Repr

/-- The 24-byte HTTP/2 cleartext preface `PRI * HTTP/2.0\r\n\r\nSM\r\n\r\n`. -/
def HTTP2_PREFACE : List Nat :=
  [80, 82, 73, 32, 42, 32, 72, 84, 84, 80, 47, 50, 46, 48, 13, 10, 13, 10,
   83, 77, 13, 10, 13, 10]

/-- The eight ASCII method tokens of `HTTP_METHODS`, each with its
trailing space: GET, POST, HEAD, PUT, DELETE, OPTIONS, PATCH, TRACE. -/
def HTTP_METHODS : List (List Nat) :=
  [[71, 69, 84, 32],
   [80, 79, 83, 84, 32],
   [72, 69, 65, 68, 32],
   [80, 85, 84, 32],
   [68, 69, 76, 69, 84, 69, 32],
   [79, 80, 84, 73, 79, 78, 83, 32],
   [80, 65, 84, 67, 72, 32],
   [84, 82, 65, 67, 69, 32]]

/-- The 4-byte SSH version banner lead `SSH-`. -/
def SSH_VERSION_PREFIX : List Nat := [83, 83, 72, 45]

/-- The bytes of `HTTP/1.0`. -/
def http10Bytes : List Nat := [72, 84, 84, 80, 47, 49, 46, 48]

/-- The bytes of `HTTP/1.1`. -/
def http11Bytes : List Nat := [72, 84, 84, 80, 47, 49, 46, 49]

/-- The embedding of `detect_http_version`
(`sniproxy-core/src/connection.rs`): decode the request line as UTF-8 and
look for a version substring, defaulting to HTTP/1.1. -/
def detect_http_version (bytes : List Nat) : Protocol :=
  if utf8Valid bytes then
    if hasSub http10Bytes bytes then .Http10
    else if hasSub http11Bytes bytes then .Http11
    else .Http11
  else .Http11

/-- The embedding of `detect_protocol`
(`sniproxy-core/src/connection.rs`): HTTP/2 preface, then HTTP methods
(with version sniffing on the first line), then SSH, then the TLS
handshake marker `0x16`, else unknown. -/
def detect_protocol (peek : List Nat) : Protocol :=
  if leadsWith HTTP2_PREFACE peek then .Http2
  else if HTTP_METHODS.any (fun m => leadsWith m peek) then
    match peek.findIdx? (fun b => b == 10) with
    | some p => detect_http_version (peek.take p)
    | none => .Http11
  else if leadsWith SSH_VERSION_PREFIX peek then .Ssh
  else if !peek.isEmpty && peek.getD 0 0 == 22 then .Tls
  else .Unknown

/-! ## `sniproxy-config/src/lib.rs`: allowlist matching -/

/-- The embedding of `matches_allowlist_pattern`
(`sniproxy-config/src/lib.rs`) on byte sequences: exact match, `*.domain`
(strip `*.`, then hostname ends with `.domain` or equals `domain`), or
any other `*`-led pattern as a plain suffix match.  42 is `*`, 46 is `.`. -/
def matches_allowlist_pattern (hostname pattern : List Nat) : Bool :=
  if pattern == hostname then true
  else
    match pattern with
    | 42 :: 46 :: domain => tailIs (46 :: domain) hostname || hostname == domain
    | 42 :: suffix_part => tailIs suffix_part hostname
    | _ => false

/-- ASCII lower-casing of a byte string: the fragment of Rust
`str::to_lowercase` used by `is_host_allowed` (hostnames and allowlist
patterns; the theorems about it stay within ASCII, where the Unicode and
ASCII lowercase maps agree byte for byte). -/
def asciiLower (s : List Nat) : List Nat := s.map lowerByte

/-- The embedding of `ConnectionHandler::is_host_allowed`
(`sniproxy-core/src/connection.rs`): the literal pattern `*` admits
everything, else some lowercased pattern must match the lowercased host. -/
def is_host_allowed (host : List Nat) (allowlist : List (List Nat)) : Bool :=
  if allowlist.contains [42] then true
  else allowlist.any (fun pattern => matches_allowlist_pattern (asciiLower host) (asciiLower pattern))

/-! ## `sniproxy-core/src/connection_pool.rs` -/

/-- The embedding of `PoolConfig` (durations in whole seconds, as the
source holds them). -/
structure PoolConfig where
  max_per_host : Nat
  connection_ttl : Nat
  idle_timeout : Nat
  enabled : Bool
  keep_alive_enabled : Bool
  max_requests_per_connection : Nat
  keep_alive_timeout : Nat
deriving DecidableEq, Repr

/-- The embedding of `PooledConnection`: the stream is an abstract
numeric identifier, `Instant`s are absolute times in seconds.  The
`http_version` field only feeds debug logging and is omitted. -/
structure PooledConnection where
  stream : Nat
  created_at : Nat
  last_used : Nat
  keep_alive : Bool
  request_count : Nat
deriving DecidableEq, Repr

/-- Source `PooledConnection::new`: fresh entry, both timestamps now,
Keep-Alive on, zero requests. -/
def PooledConnection.new (stream now : Nat) : PooledConnection :=
  ⟨stream, now, now, true, 0⟩

/-- Source `PooledConnection::is_expired`: `created_at.elapsed() > ttl`. -/
def conn_is_expired (c : PooledConnection) (ttl now : Nat) : Bool :=
  decide (now - c.created_at > ttl)

/-- Source `PooledConnection::is_idle`: `last_used.elapsed() > idle_timeout`. -/
def conn_is_idle (c : PooledConnection) (idle_timeout now : Nat) : Bool :=
  decide (now - c.last_used > idle_timeout)

/-- Source `PooledConnection::is_valid`: neither expired nor idle. -/
def conn_is_valid (c : PooledConnection) (ttl idle_timeout now : Nat) : Bool :=
  !conn_is_expired c ttl now && !conn_is_idle c idle_timeout now

/-- Source `PooledConnection::can_keep_alive`: Keep-Alive flag set and
`request_count < max_requests`. -/
def can_keep_alive (c : PooledConnection) (max_requests : Nat) : Bool :=
  c.keep_alive && decide (c.request_count < max_requests)

/-- Source `PooledConnection::mark_used`. -/
def mark_used (c : PooledConnection) (now : Nat) : PooledConnection :=
  { c with request_count := c.request_count + 1, last_used := now }

/-- The `while let Some(conn) = pool.pop()` loop of
`ConnectionPool::get`.  The bucket list holds the source `Vec` reversed,
most recently pushed entry first, so `Vec::pop` is list head removal.
Returns the vended connection (after `mark_used`) and the remaining
bucket; popped invalid or non-reusable entries are dropped (evicted). -/
def pool_get_loop (cfg : PoolConfig) (now : Nat) :
    List PooledConnection → Option PooledConnection × List PooledConnection
  | [] => (none, [])
  | conn :: rest =>
    if !conn_is_valid conn cfg.connection_ttl cfg.idle_timeout now then
      pool_get_loop cfg now rest
    else if cfg.keep_alive_enabled && !can_keep_alive conn cfg.max_requests_per_connection then
      pool_get_loop cfg now rest
    else
      (some (mark_used conn now), rest)

/-- The embedding of `ConnectionPool::get` for one host bucket: `None`
without popping when the pool is disabled, else the eviction loop. -/
def pool_get (cfg : PoolConfig) (now : Nat) (bucket : List PooledConnection) :
    Option PooledConnection × List PooledConnection :=
  if !cfg.enabled then (none, bucket) else pool_get_loop cfg now bucket

/-- The embedding of `ConnectionPool::put` for one host bucket: refuse
when disabled or the bucket is at `max_per_host`, else push a fresh
entry (both timestamps `now`). -/
def pool_put (cfg : PoolConfig) (now : Nat) (bucket : List PooledConnection)
    (stream : Nat) : Bool × List PooledConnection :=
  if !cfg.enabled then (false, bucket)
  else if bucket.length ≥ cfg.max_per_host then (false, bucket)
  else (true, PooledConnection.new stream now :: bucket)

/-- The reuse test `ConnectionPool::get` applies to a popped entry:
valid (not expired, not idle) and, when Keep-Alive is enabled, able to
keep alive. -/
def pool_reusable (cfg : PoolConfig) (now : Nat) (c : PooledConnection) : Bool :=
  conn_is_valid c cfg.connection_ttl cfg.idle_timeout now &&
    !(cfg.keep_alive_enabled && !can_keep_alive c cfg.max_requests_per_connection)

/-- Decidable equality for `Except`, used to evaluate concrete runs. -/
instance {α β : Type} [DecidableEq α] [DecidableEq β] : DecidableEq (Except α β) :=
  fun a b =>
  match a, b with
  | .error x, .error y =>
    if h : x = y then isTrue (by rw [h]) else isFalse (fun hc => h (by injection hc))
  | .ok x, .ok y =>
    if h : x = y then isTrue (by rw [h]) else isFalse (fun hc => h (by injection hc))
  | .error _, .ok _ => isFalse (fun hc => Except.noConfusion hc)
  | .ok _, .error _ => isFalse (fun hc => Except.noConfusion hc)

/-! ## Spec-side grammar of a well-formed ClientHello (from spec §4.1)

These definitions follow the specification's words, not the source: a
well-formed record is one the grammar of §4.1 accepts with every length
field exact.  They exist to compare `extract_sni` against the spec. -/

/-- Spec-side parse of the extensions region: a sequence of
`(type:u16, length:u16, body)` records tiling the region exactly.
Returns the `(type, body)` list.  The first argument is fuel; every
step consumes at least four bytes, so fuel `l.length` never runs out
when starting at `specExtensionsOf`. -/
def specParseExtensions : Nat → List Nat → Option (List (Nat × List Nat))
  | _, [] => some []
  | 0, _ :: _ => none
  | fuel + 1, t1 :: t2 :: l1 :: l2 :: rest =>
    let n := u16be l1 l2
    if n ≤ rest.length then
      match specParseExtensions fuel (rest.drop n) with
      | some es => some ((u16be t1 t2, rest.take n) :: es)
      | none => none
    else none
  | _ + 1, _ => none

/-- Spec-side parse of a server_name entry list: a sequence of
`(name_type:u8, name_length:u16, name)` entries tiling exactly.
Returns the `(name_type, name)` list.  Fueled like
`specParseExtensions`. -/
def specParseEntries : Nat → List Nat → Option (List (Nat × List Nat))
  | _, [] => some []
  | 0, _ :: _ => none
  | fuel + 1, t :: hB :: loB :: rest =>
    let n := u16be hB loB
    if n ≤ rest.length then
      match specParseEntries fuel (rest.drop n) with
      | some es => some ((t, rest.take n) :: es)
      | none => none
    else none
  | _ + 1, _ => none

/-- Spec-side parse of an SNI extension body:
`{list_length:u16, entries}` with the entry list tiling `list_length`
bytes exactly. -/
def specParseSniBody (body : List Nat) : Option (List (Nat × List Nat)) :=
  match body with
  | l1 :: l2 :: entries =>
    if entries.length = u16be l1 l2 then specParseEntries entries.length entries else none
  | _ => none

/-- Spec-side parse of the ClientHello body after the 4-byte handshake
header: client_version (2) + random (32), session id, cipher suites,
compression methods, then an extensions region whose declared length is
exactly the remainder. -/
def specParseChBody (body : List Nat) : Option (List (Nat × List Nat)) :=
  if 34 ≤ body.length then
    match body.drop 34 with
    | sl :: rest1 =>
      if sl ≤ rest1.length then
        match rest1.drop sl with
        | c1 :: c2 :: rest2 =>
          if u16be c1 c2 ≤ rest2.length then
            match rest2.drop (u16be c1 c2) with
            | ml :: rest3 =>
              if ml ≤ rest3.length then
                match rest3.drop ml with
                | e1 :: e2 :: rest4 =>
                  if rest4.length = u16be e1 e2 then
                    specParseExtensions rest4.length rest4
                  else none
                | _ => none
              else none
            | _ => none
          else none
        | _ => none
      else none
    | _ => none
  else none

/-- Spec-side recogniser of a well-formed TLS ClientHello record
(spec §4.1): handshake record type 0x16, version major 0x03, exact
record length, ClientHello type 0x01, exact 24-bit handshake length,
then the body grammar.  Returns the extension list on success. -/
def specParseClientHello (b : List Nat) : Option (List (Nat × List Nat)) :=
  match b with
  | 22 :: 3 :: _ :: r1 :: r2 :: rest =>
    if rest.length = u16be r1 r2 then
      match rest with
      | 1 :: h1 :: h2 :: h3 :: body =>
        if body.length = h1 * 65536 + h2 * 256 + h3 then specParseChBody body else none
      | _ => none
    else none
  | _ => none

/-! ## Concrete inputs used by counterexamples and witnesses -/

/-- A well-formed ClientHello whose single SNI server_name entry has
type 0 and an empty name. -/
def sniEmptyNameRec : List Nat :=
  [22, 3, 1, 0, 53, 1, 0, 0, 49, 3, 3] ++ List.replicate 32 0 ++
  [0, 0, 0, 0, 0, 9, 0, 0, 0, 5, 0, 3, 0, 0, 0]

/-- The ClientHello of the source's `test_extract_sni_simple` test,
carrying SNI `example`. -/
def sniExampleRec : List Nat :=
  [0x16, 0x03, 0x01, 0x00, 0x30, 0x01, 0x00, 0x00, 0x2C, 0x03, 0x03] ++
  List.replicate 32 0 ++
  [0x00, 0x00, 0x02, 0x00, 0x00, 0x01, 0x00, 0x00, 0x10,
   0x00, 0x00, 0x00, 0x0C, 0x00, 0x0A, 0x00, 0x00, 0x07,
   0x65, 0x78, 0x61, 0x6D, 0x70, 0x6C, 0x65]

/-- A well-formed-up-to-extensions record whose single extension is
non-SNI (type 0x0010) and declares length 0xFFFF, far past the 4-byte
extensions region. -/
def extOverrunRec : List Nat :=
  [22, 3, 1, 0, 48, 1, 0, 0, 44, 3, 3] ++ List.replicate 32 0 ++
  [0, 0, 0, 0, 0, 4, 0, 16, 255, 255]

/-- The bytes of `GET / HTTP/1.1\r\nHost: h.com\r\n\r\nBODY`: one read
chunk whose tail extends past the header block terminator. -/
def hostChunkWithBody : List Nat :=
  [71, 69, 84, 32, 47, 32, 72, 84, 84, 80, 47, 49, 46, 49, 13, 10,
   72, 111, 115, 116, 58, 32, 104, 46, 99, 111, 109, 13, 10, 13, 10,
   66, 79, 68, 89]

/-- The bytes of `GET / HTTP/1.1\r\nHost: \r\n\r\n`: a Host header whose
value is a single space, trimming to the empty string. -/
def hostEmptyValueChunk : List Nat :=
  [71, 69, 84, 32, 47, 32, 72, 84, 84, 80, 47, 49, 46, 49, 13, 10,
   72, 111, 115, 116, 58, 32, 13, 10, 13, 10]

/-- The bytes of `GET ` followed by the invalid UTF-8 byte 0xFF and
`HTTP/1.0\n`: a method-led buffer whose first line byte-contains
`HTTP/1.0` but does not decode as UTF-8. -/
def getBadUtf8Peek : List Nat :=
  [71, 69, 84, 32, 255, 72, 84, 84, 80, 47, 49, 46, 48, 10]

/-- An exactly well-formed ClientHello (every length field tight)
carrying SNI `example`. -/
def noSniRec : List Nat :=
  [22, 3, 1, 0, 48, 1, 0, 0, 44, 3, 3] ++ List.replicate 32 0 ++
  [0, 0, 0, 0, 0, 4, 0, 1, 0, 0]

/-- An exactly well-formed ClientHello (every length field tight)
carrying SNI `example`. -/
def sniWellFormedRec : List Nat :=
  [22, 3, 3, 0, 63, 1, 0, 0, 59, 3, 3] ++ List.replicate 32 0 ++
  [0, 0, 2, 0, 0, 1, 0, 0, 16,
   0, 0, 0, 12, 0, 10, 0, 0, 7,
   101, 120, 97, 109, 112, 108, 101]

/-! ## Basic read and slice lemmas -/

theorem get?_eq_drop_head (l : List Nat) (n : Nat) : l.get? n = (l.drop n).head? := by
  induction l generalizing n with
  | nil => cases n <;> rfl
  | cons a t ih =>
    cases n with
    | zero => rfl
    | succ m => simp only [List.drop_succ_cons, List.get?_cons_succ]; exact ih m

theorem rd_some_of_lt {b : List Nat} {i : Nat} (h : i < b.length) : ∃ v, rd b i = some v := by
  rcases hx : b.get? i with _ | v
  · rw [List.get?_eq_none] at hx; omega
  · exact ⟨v, hx⟩

theorem rd_none_len {b : List Nat} {i : Nat} (h : rd b i = none) : b.length ≤ i := by
  rw [rd, List.get?_eq_none] at h; exact h

theorem dropAdd (b : List Nat) (p k : Nat) : b.drop (p + k) = (b.drop p).drop k := by
  rw [List.drop_drop]

theorem rd_drop_cons {b rest : List Nat} {p v : Nat} (h : b.drop p = v :: rest) :
    rd b p = some v := by
  rw [rd, get?_eq_drop_head, h]; rfl

theorem slice?_eq {b : List Nat} {lo hi : Nat} (h1 : lo ≤ hi) (h2 : hi ≤ b.length) :
    slice? b lo hi = some ((b.drop lo).take (hi - lo)) := by
  rw [slice?, if_pos ⟨h1, h2⟩]

theorem sniNameLoop_inr {record : List Nat} {ee : Nat} :
    ∀ {fuel pos pos2 : Nat}, sniNameLoop record ee pos fuel = some (.inr pos2) →
      ee < pos2 + 3 := by
  intro fuel
  induction fuel with
  | zero => intro pos pos2 h; simp [sniNameLoop] at h
  | succ f ih =>
    intro pos pos2 h
    rw [sniNameLoop] at h
    by_cases h3 : pos + 3 ≤ ee
    · rw [if_pos h3] at h
      rcases hv0 : rd record pos with _ | v0 <;> rw [hv0] at h
      · simp at h
      rcases hv1 : rd record (pos + 1) with _ | v1 <;> rw [hv1] at h
      · simp at h
      rcases hv2 : rd record (pos + 2) with _ | v2 <;> rw [hv2] at h
      · simp at h
      simp only at h
      by_cases hb : pos + 3 + u16be v1 v2 > ee
      · rw [if_pos hb] at h; simp at h
      rw [if_neg hb] at h
      by_cases ht : v0 = 0
      · rw [if_pos ht] at h
        rcases hs : slice? record (pos + 3) (pos + 3 + u16be v1 v2) with _ | nm <;>
          rw [hs] at h
        · simp at h
        · dsimp only at h
          split at h <;> simp at h
      · rw [if_neg ht] at h
        exact ih h
    · rw [if_neg h3] at h
      simp at h
      omega

theorem sniNameLoop_total {record : List Nat} {ee : Nat} :
    ∀ {fuel pos : Nat}, ee ≤ record.length → 1 ≤ fuel → ee < pos + fuel →
      (sniNameLoop record ee pos fuel).isSome := by
  intro fuel
  induction fuel with
  | zero => intro pos _ h1 _; omega
  | succ f ih =>
    intro pos hee _ hlt
    rw [sniNameLoop]
    by_cases h3 : pos + 3 ≤ ee
    · rw [if_pos h3]
      obtain ⟨v0, hv0⟩ := @rd_some_of_lt record (pos) (by omega)
      obtain ⟨v1, hv1⟩ := @rd_some_of_lt record (pos + 1) (by omega)
      obtain ⟨v2, hv2⟩ := @rd_some_of_lt record (pos + 2) (by omega)
      rw [hv0, hv1, hv2]
      dsimp only
      by_cases hb : pos + 3 + u16be v1 v2 > ee
      · rw [if_pos hb]; rfl
      rw [if_neg hb]
      by_cases ht : v0 = 0
      · rw [if_pos ht]
        rw [slice?_eq (by omega) (by omega)]
        dsimp only
        split <;> rfl
      · rw [if_neg ht]
        exact ih (by omega) (by omega) (by omega)
    · rw [if_neg h3]; rfl

theorem sniExtLoop_total {record : List Nat} {ee : Nat} :
    ∀ {fuel pos : Nat}, ee ≤ record.length → 1 ≤ fuel → ee < pos + fuel →
      (sniExtLoop record ee pos fuel).isSome := by
  intro fuel
  induction fuel with
  | zero => intro pos _ h1 _; omega
  | succ f ih =>
    intro pos hee _ hlt
    rw [sniExtLoop]
    by_cases h4 : pos + 4 ≤ ee
    · rw [if_pos h4]
      obtain ⟨t1, ht1⟩ := @rd_some_of_lt record (pos) (by omega)
      obtain ⟨t2, ht2⟩ := @rd_some_of_lt record (pos + 1) (by omega)
      obtain ⟨l1, hl1⟩ := @rd_some_of_lt record (pos + 2) (by omega)
      obtain ⟨l2, hl2⟩ := @rd_some_of_lt record (pos + 3) (by omega)
      rw [ht1, ht2, hl1, hl2]
      dsimp only
      by_cases hty : u16be t1 t2 = 0
      · rw [if_pos hty]
        by_cases hov : pos + 4 + u16be l1 l2 > ee
        · rw [if_pos hov]; rfl
        rw [if_neg hov]
        by_cases hl : u16be l1 l2 < 2
        · rw [if_pos hl]; rfl
        rw [if_neg hl]
        obtain ⟨s1, hs1⟩ := @rd_some_of_lt record (pos + 4) (by omega)
        obtain ⟨s2, hs2⟩ := @rd_some_of_lt record (pos + 5) (by omega)
        rw [hs1, hs2]
        dsimp only
        by_cases hsl : u16be s1 s2 + 2 > u16be l1 l2
        · rw [if_pos hsl]; rfl
        rw [if_neg hsl]
        have htot := @sniNameLoop_total record ee (ee + 1) (pos + 6)
          hee (by omega) (by omega)
        rcases hnl : sniNameLoop record ee (pos + 6) (ee + 1) with _ | r
        · rw [hnl] at htot; simp at htot
        rcases r with r | pos2
        · rfl
        · have hp2 := sniNameLoop_inr hnl
          exact ih hee (by omega) (by omega)
      · rw [if_neg hty]
        exact ih hee (by omega) (by omega)
    · rw [if_neg h4]; rfl

theorem extract_sni_total (record : List Nat) : (extract_sni record).isSome := by
  rw [extract_sni]
  by_cases hlen : record.length < 5
  · rw [if_pos hlen]; rfl
  rw [if_neg hlen]
  obtain ⟨b0, hb0⟩ := @rd_some_of_lt record (0) (by omega)
  obtain ⟨b1, hb1⟩ := @rd_some_of_lt record (1) (by omega)
  obtain ⟨r3, hr3⟩ := @rd_some_of_lt record (3) (by omega)
  obtain ⟨r4, hr4⟩ := @rd_some_of_lt record (4) (by omega)
  rw [hb0, hb1, hr3, hr4]
  dsimp only
  by_cases h0 : b0 ≠ 22
  · rw [if_pos h0]; rfl
  rw [if_neg h0]
  by_cases h1 : b1 ≠ 3
  · rw [if_pos h1]; rfl
  rw [if_neg h1]
  by_cases h2 : record.length < u16be r3 r4 + 5
  · rw [if_pos h2]; rfl
  rw [if_neg h2]
  by_cases h3 : record.length < 5 + 4
  · rw [if_pos h3]; rfl
  rw [if_neg h3]
  obtain ⟨b5, hb5⟩ := @rd_some_of_lt record (5) (by omega)
  obtain ⟨h1v, hh1⟩ := @rd_some_of_lt record (6) (by omega)
  obtain ⟨h2v, hh2⟩ := @rd_some_of_lt record (7) (by omega)
  obtain ⟨h3v, hh3⟩ := @rd_some_of_lt record (8) (by omega)
  rw [hb5, hh1, hh2, hh3]
  dsimp only
  by_cases h4 : b5 ≠ 1
  · rw [if_pos h4]; rfl
  rw [if_neg h4]
  by_cases h5 : record.length < 5 + 4 + (h1v * 65536 + h2v * 256 + h3v)
  · rw [if_pos h5]; rfl
  rw [if_neg h5]
  by_cases h6 : record.length < 5 + 4 + 2 + 32 + 1
  · rw [if_pos h6]; rfl
  rw [if_neg h6]
  obtain ⟨sl, hsl⟩ := @rd_some_of_lt record (5 + 4 + 2 + 32) (by omega)
  rw [hsl]
  dsimp only
  by_cases h7 : record.length < 5 + 4 + 2 + 32 + 1 + sl + 2
  · rw [if_pos h7]; rfl
  rw [if_neg h7]
  obtain ⟨c1, hc1⟩ := @rd_some_of_lt record (5 + 4 + 2 + 32 + 1 + sl) (by omega)
  obtain ⟨c2, hc2⟩ := @rd_some_of_lt record (5 + 4 + 2 + 32 + 1 + sl + 1) (by omega)
  rw [hc1, hc2]
  dsimp only
  by_cases h8 : record.length < 5 + 4 + 2 + 32 + 1 + sl + 2 + u16be c1 c2 + 1
  · rw [if_pos h8]; rfl
  rw [if_neg h8]
  obtain ⟨ml, hml⟩ := @rd_some_of_lt
    record (5 + 4 + 2 + 32 + 1 + sl + 2 + u16be c1 c2) (by omega)
  rw [hml]
  dsimp only
  by_cases h9 : record.length < 5 + 4 + 2 + 32 + 1 + sl + 2 + u16be c1 c2 + 1 + ml + 2
  · rw [if_pos h9]; rfl
  rw [if_neg h9]
  obtain ⟨e1, he1⟩ := @rd_some_of_lt
    record (5 + 4 + 2 + 32 + 1 + sl + 2 + u16be c1 c2 + 1 + ml) (by omega)
  obtain ⟨e2, he2⟩ := @rd_some_of_lt
    record (5 + 4 + 2 + 32 + 1 + sl + 2 + u16be c1 c2 + 1 + ml + 1) (by omega)
  rw [he1, he2]
  dsimp only
  by_cases h10 : record.length <
      5 + 4 + 2 + 32 + 1 + sl + 2 + u16be c1 c2 + 1 + ml + 2 + u16be e1 e2
  · rw [if_pos h10]; rfl
  rw [if_neg h10]
  exact sniExtLoop_total (by omega) (by omega) (by omega)

theorem alpnExtLoop_total {record : List Nat} {ee : Nat} :
    ∀ {fuel pos : Nat}, ee ≤ record.length → 1 ≤ fuel → ee < pos + fuel →
      (alpnExtLoop record ee pos fuel).isSome := by
  intro fuel
  induction fuel with
  | zero => intro pos _ h1 _; omega
  | succ f ih =>
    intro pos hee _ hlt
    rw [alpnExtLoop]
    by_cases h4 : pos + 4 ≤ ee
    · rw [if_pos h4]
      obtain ⟨t1, ht1⟩ := @rd_some_of_lt record (pos) (by omega)
      obtain ⟨t2, ht2⟩ := @rd_some_of_lt record (pos + 1) (by omega)
      obtain ⟨l1, hl1⟩ := @rd_some_of_lt record (pos + 2) (by omega)
      obtain ⟨l2, hl2⟩ := @rd_some_of_lt record (pos + 3) (by omega)
      rw [ht1, ht2, hl1, hl2]
      dsimp only
      by_cases hty : u16be t1 t2 = 16
      · rw [if_pos hty]
        by_cases hov : pos + 4 + u16be l1 l2 > ee ∨ u16be l1 l2 < 2
        · rw [if_pos hov]; rfl
        rw [if_neg hov]
        obtain ⟨a1, ha1⟩ := @rd_some_of_lt record (pos + 4) (by omega)
        obtain ⟨a2, ha2⟩ := @rd_some_of_lt record (pos + 5) (by omega)
        rw [ha1, ha2]
        dsimp only
        by_cases hll : u16be a1 a2 + 2 > u16be l1 l2 ∨ pos + 6 + u16be a1 a2 > ee
        · rw [if_pos hll]; rfl
        rw [if_neg hll]
        by_cases hne : pos + 6 < ee
        · rw [if_pos hne]
          obtain ⟨pl, hpl⟩ := @rd_some_of_lt record (pos + 6) (by omega)
          rw [hpl]
          dsimp only
          by_cases hfit : pos + 7 + pl ≤ ee
          · rw [if_pos hfit]
            rw [slice?_eq (by omega) (by omega)]
            dsimp only
            split <;> rfl
          · rw [if_neg hfit]; rfl
        · rw [if_neg hne]; rfl
      · rw [if_neg hty]
        exact ih hee (by omega) (by omega)
    · rw [if_neg h4]; rfl

theorem extract_alpn_total (record : List Nat) : (extract_alpn record).isSome := by
  rw [extract_alpn]
  by_cases hlen : record.length < 5 + 4
  · rw [if_pos hlen]; rfl
  rw [if_neg hlen]
  obtain ⟨b0, hb0⟩ := @rd_some_of_lt record (0) (by omega)
  obtain ⟨b5, hb5⟩ := @rd_some_of_lt record (5) (by omega)
  rw [hb0, hb5]
  dsimp only
  by_cases h0 : b0 ≠ 22 ∨ b5 ≠ 1
  · rw [if_pos h0]; rfl
  rw [if_neg h0]
  obtain ⟨h1v, hh1⟩ := @rd_some_of_lt record (6) (by omega)
  obtain ⟨h2v, hh2⟩ := @rd_some_of_lt record (7) (by omega)
  obtain ⟨h3v, hh3⟩ := @rd_some_of_lt record (8) (by omega)
  rw [hh1, hh2, hh3]
  dsimp only
  by_cases h5 : record.length < 5 + 4 + (h1v * 65536 + h2v * 256 + h3v)
  · rw [if_pos h5]; rfl
  rw [if_neg h5]
  by_cases h6 : record.length < 5 + 4 + 2 + 32 + 1
  · rw [if_pos h6]; rfl
  rw [if_neg h6]
  obtain ⟨sl, hsl⟩ := @rd_some_of_lt record (5 + 4 + 2 + 32) (by omega)
  rw [hsl]
  dsimp only
  by_cases h7 : record.length < 5 + 4 + 2 + 32 + 1 + sl + 2
  · rw [if_pos h7]; rfl
  rw [if_neg h7]
  obtain ⟨c1, hc1⟩ := @rd_some_of_lt record (5 + 4 + 2 + 32 + 1 + sl) (by omega)
  obtain ⟨c2, hc2⟩ := @rd_some_of_lt record (5 + 4 + 2 + 32 + 1 + sl + 1) (by omega)
  rw [hc1, hc2]
  dsimp only
  by_cases h8 : record.length < 5 + 4 + 2 + 32 + 1 + sl + 2 + u16be c1 c2 + 1
  · rw [if_pos h8]; rfl
  rw [if_neg h8]
  obtain ⟨ml, hml⟩ := @rd_some_of_lt
    record (5 + 4 + 2 + 32 + 1 + sl + 2 + u16be c1 c2) (by omega)
  rw [hml]
  dsimp only
  by_cases h9 : record.length < 5 + 4 + 2 + 32 + 1 + sl + 2 + u16be c1 c2 + 1 + ml + 2
  · rw [if_pos h9]; rfl
  rw [if_neg h9]
  obtain ⟨e1, he1⟩ := @rd_some_of_lt
    record (5 + 4 + 2 + 32 + 1 + sl + 2 + u16be c1 c2 + 1 + ml) (by omega)
  obtain ⟨e2, he2⟩ := @rd_some_of_lt
    record (5 + 4 + 2 + 32 + 1 + sl + 2 + u16be c1 c2 + 1 + ml + 1) (by omega)
  rw [he1, he2]
  dsimp only
  by_cases h10 : record.length <
      5 + 4 + 2 + 32 + 1 + sl + 2 + u16be c1 c2 + 1 + ml + 2 + u16be e1 e2
  · rw [if_pos h10]; rfl
  rw [if_neg h10]
  exact alpnExtLoop_total (by omega) (by omega) (by omega)

/-- C2: neither `extract_sni` nor `extract_alpn` ever performs an
out-of-bounds read for any input whatsoever: every checked access in the
embedding succeeds, so the panic layer is always `some` and the
functions return an error (respectively `None`) instead of reading out
of bounds. -/
theorem c2_no_out_of_bounds (record : List Nat) :
    (extract_sni record).isSome ∧ (extract_alpn record).isSome :=
  ⟨extract_sni_total record, extract_alpn_total record⟩

/-- C3 (amended): the header checks of `extract_sni` in source order, the
`MessageTruncated` overrun checks inside the SNI extension, and the
corrected behaviour for a non-SNI extension whose declared length
overruns the extensions region (the loop exits and the parse fails
`InvalidSniFormat`, not `MessageTruncated`). -/
theorem c3_error_classification :
    (∀ b : List Nat, b.length < 5 → extract_sni b = some (.error .MessageTruncated)) ∧
    (∀ (b : List Nat) (b0 : Nat), 5 ≤ b.length → rd b 0 = some b0 → b0 ≠ 22 →
      extract_sni b = some (.error .InvalidHandshakeType)) ∧
    (∀ (b : List Nat) (b1 : Nat), 5 ≤ b.length → rd b 0 = some 22 → rd b 1 = some b1 →
      b1 ≠ 3 → extract_sni b = some (.error .InvalidTlsVersion)) ∧
    (∀ (b : List Nat) (r3 r4 : Nat), 5 ≤ b.length → rd b 0 = some 22 → rd b 1 = some 3 →
      rd b 3 = some r3 → rd b 4 = some r4 → b.length < u16be r3 r4 + 5 →
      extract_sni b = some (.error .MessageTruncated)) ∧
    (∀ (b : List Nat) (r3 r4 b5 : Nat), 9 ≤ b.length → rd b 0 = some 22 → rd b 1 = some 3 →
      rd b 3 = some r3 → rd b 4 = some r4 → u16be r3 r4 + 5 ≤ b.length → rd b 5 = some b5 →
      b5 ≠ 1 → extract_sni b = some (.error .InvalidClientHello)) ∧
    (∀ (b : List Nat) (ee pos fuel t1 t2 l1 l2 : Nat), pos + 4 ≤ ee →
      rd b pos = some t1 → rd b (pos + 1) = some t2 → rd b (pos + 2) = some l1 →
      rd b (pos + 3) = some l2 → u16be t1 t2 = 0 → pos + 4 + u16be l1 l2 > ee →
      sniExtLoop b ee pos (fuel + 1) = some (.error .MessageTruncated)) ∧
    (∀ (b : List Nat) (ee pos fuel t b1 b2 : Nat), pos + 3 ≤ ee →
      rd b pos = some t → rd b (pos + 1) = some b1 → rd b (pos + 2) = some b2 →
      pos + 3 + u16be b1 b2 > ee →
      sniNameLoop b ee pos (fuel + 1) = some (.inl (.error .MessageTruncated))) ∧
    (∀ (b : List Nat) (ee pos fuel t1 t2 l1 l2 : Nat), pos + 4 ≤ ee →
      rd b pos = some t1 → rd b (pos + 1) = some t2 → rd b (pos + 2) = some l1 →
      rd b (pos + 3) = some l2 → u16be t1 t2 ≠ 0 → pos + 4 + u16be l1 l2 > ee →
      sniExtLoop b ee pos (fuel + 2) = some (.error .InvalidSniFormat)) := by
  refine ⟨?_, ?_, ?_, ?_, ?_, ?_, ?_, ?_⟩
  · intro b hlen
    rw [extract_sni, if_pos hlen]
  · intro b b0 hlen hb0 hne
    rw [extract_sni, if_neg (by omega)]
    obtain ⟨b1, hb1⟩ := @rd_some_of_lt b (1) (by omega)
    obtain ⟨r3, hr3⟩ := @rd_some_of_lt b (3) (by omega)
    obtain ⟨r4, hr4⟩ := @rd_some_of_lt b (4) (by omega)
    rw [hb0, hb1, hr3, hr4]
    dsimp only
    rw [if_pos hne]
  · intro b b1 hlen hb0 hb1 hne
    rw [extract_sni, if_neg (by omega)]
    obtain ⟨r3, hr3⟩ := @rd_some_of_lt b (3) (by omega)
    obtain ⟨r4, hr4⟩ := @rd_some_of_lt b (4) (by omega)
    rw [hb0, hb1, hr3, hr4]
    dsimp only
    rw [if_neg (by simp), if_pos hne]
  · intro b r3 r4 hlen hb0 hb1 hr3 hr4 hlt
    rw [extract_sni, if_neg (by omega)]
    rw [hb0, hb1, hr3, hr4]
    dsimp only
    rw [if_neg (by simp), if_neg (by simp), if_pos hlt]
  · intro b r3 r4 b5 hlen hb0 hb1 hr3 hr4 hge hb5 hne
    rw [extract_sni, if_neg (by omega)]
    rw [hb0, hb1, hr3, hr4]
    dsimp only
    rw [if_neg (by simp), if_neg (by simp), if_neg (by omega), if_neg (by omega)]
    obtain ⟨h1v, hh1⟩ := @rd_some_of_lt b (6) (by omega)
    obtain ⟨h2v, hh2⟩ := @rd_some_of_lt b (7) (by omega)
    obtain ⟨h3v, hh3⟩ := @rd_some_of_lt b (8) (by omega)
    rw [hb5, hh1, hh2, hh3]
    dsimp only
    rw [if_pos hne]
  · intro b ee pos fuel t1 t2 l1 l2 h4 ht1 ht2 hl1 hl2 hty hov
    rw [sniExtLoop, if_pos h4, ht1, ht2, hl1, hl2]
    dsimp only
    rw [if_pos hty, if_pos hov]
  · intro b ee pos fuel t b1 b2 h3 ht hb1 hb2 hov
    rw [sniNameLoop, if_pos h3, ht, hb1, hb2]
    dsimp only
    rw [if_pos hov]
  · intro b ee pos fuel t1 t2 l1 l2 h4 ht1 ht2 hl1 hl2 hty hov
    rw [sniExtLoop, if_pos h4, ht1, ht2, hl1, hl2]
    dsimp only
    rw [if_neg hty]
    rw [sniExtLoop, if_neg (by omega)]

/-- Witness for C3: each clause of `c3_error_classification`
instantiated at a concrete input. -/
theorem c3_witness :
    extract_sni [22, 3, 1] = some (.error .MessageTruncated) ∧
    extract_sni [21, 3, 3, 0, 2] = some (.error .InvalidHandshakeType) ∧
    extract_sni [22, 4, 3, 0, 0] = some (.error .InvalidTlsVersion) ∧
    extract_sni [22, 3, 3, 0, 2] = some (.error .MessageTruncated) ∧
    extract_sni [22, 3, 3, 0, 4, 2, 0, 0, 0] = some (.error .InvalidClientHello) ∧
    sniExtLoop [0, 0, 0, 9] 4 0 5 = some (.error .MessageTruncated) ∧
    sniNameLoop [1, 0, 9] 3 0 5 = some (.inl (.error .MessageTruncated)) ∧
    sniExtLoop [0, 1, 255, 255] 4 0 5 = some (.error .InvalidSniFormat) :=
  ⟨c3_error_classification.1 [22, 3, 1] (by decide),
   c3_error_classification.2.1 [21, 3, 3, 0, 2] 21 (by decide) rfl (by decide),
   c3_error_classification.2.2.1 [22, 4, 3, 0, 0] 4 (by decide) rfl rfl (by decide),
   c3_error_classification.2.2.2.1 [22, 3, 3, 0, 2] 0 2 (by decide) rfl rfl rfl rfl
     (by decide),
   c3_error_classification.2.2.2.2.1 [22, 3, 3, 0, 4, 2, 0, 0, 0] 0 4 2 (by decide) rfl rfl
     rfl rfl (by decide) rfl (by decide),
   c3_error_classification.2.2.2.2.2.1 [0, 0, 0, 9] 4 0 4 0 0 0 9 (by decide) rfl rfl rfl
     rfl (by decide) (by decide),
   c3_error_classification.2.2.2.2.2.2.1 [1, 0, 9] 3 0 4 1 0 9 (by decide) rfl rfl rfl
     (by decide),
   c3_error_classification.2.2.2.2.2.2.2 [0, 1, 255, 255] 4 0 3 0 1 255 255 (by decide)
     rfl rfl rfl rfl (by decide) (by decide)⟩

/-- Counterexample for C3 as stated: in `extOverrunRec` the single
extension (type 0x0010) declares length 0xFFFF, far past its 4-byte
enclosing extensions region, yet `extract_sni` fails with
`InvalidSniFormat` rather than the claimed `MessageTruncated`. -/
theorem c3_counterexample :
    extract_sni extOverrunRec = some (.error .InvalidSniFormat) ∧
    ¬ extract_sni extOverrunRec = some (.error .MessageTruncated) := by
  constructor
  · rfl
  · intro h
    rw [show extract_sni extOverrunRec = some (.error .InvalidSniFormat) from rfl] at h
    simp at h

theorem rd_drop_cons2 {b rest : List Nat} {p v w : Nat} (h : b.drop p = v :: w :: rest) :
    rd b (p + 1) = some w := by
  rw [rd, get?_eq_drop_head, dropAdd, h]; rfl

theorem rd_drop_cons3 {b rest : List Nat} {p v w x : Nat}
    (h : b.drop p = v :: w :: x :: rest) : rd b (p + 2) = some x := by
  rw [rd, get?_eq_drop_head, dropAdd, h]; rfl

theorem rd_drop_cons4 {b rest : List Nat} {p v w x y : Nat}
    (h : b.drop p = v :: w :: x :: y :: rest) : rd b (p + 3) = some y := by
  rw [rd, get?_eq_drop_head, dropAdd, h]; rfl

theorem drop_len_eq {b rem : List Nat} {p : Nat} (hp : p ≤ b.length)
    (h : b.drop p = rem) : p + rem.length = b.length := by
  have := List.length_drop p b
  rw [h] at this
  omega

theorem specParseExtensions_cons {fuel : Nat} {remExt : List Nat}
    {e : Nat × List Nat} {es : List (Nat × List Nat)}
    (h : specParseExtensions fuel remExt = some (e :: es)) :
    ∃ (f : Nat) (t1 t2 l1 l2 : Nat) (rest : List Nat),
      fuel = f + 1 ∧ remExt = t1 :: t2 :: l1 :: l2 :: rest ∧
      u16be l1 l2 ≤ rest.length ∧ e = (u16be t1 t2, rest.take (u16be l1 l2)) ∧
      specParseExtensions f (rest.drop (u16be l1 l2)) = some es := by
  match fuel, remExt with
  | _, [] => simp [specParseExtensions] at h
  | 0, x :: rest => simp [specParseExtensions] at h
  | f + 1, t1 :: t2 :: l1 :: l2 :: rest =>
    rw [specParseExtensions] at h
    split at h
    · rename_i hle
      split at h
      · rename_i es' hes
        refine ⟨f, t1, t2, l1, l2, rest, rfl, rfl, hle, ?_, ?_⟩
        · injection h with h2
          injection h2 with h3 h4
          exact h3.symm
        · rw [hes]
          injection h with h2
          injection h2 with h3 h4
          rw [h4]
      · exact absurd h (by simp)
    · exact absurd h (by simp)
  | f + 1, [x] => simp [specParseExtensions] at h
  | f + 1, [x, y] => simp [specParseExtensions] at h
  | f + 1, [x, y, z] => simp [specParseExtensions] at h

theorem specParseExtensions_nil {fuel : Nat} {remExt : List Nat}
    (h : specParseExtensions fuel remExt = some []) : remExt = [] := by
  match fuel, remExt with
  | _, [] => rfl
  | 0, x :: rest => simp [specParseExtensions] at h
  | f + 1, t1 :: t2 :: l1 :: l2 :: rest =>
    rw [specParseExtensions] at h
    split at h
    · split at h <;> simp_all
    · simp at h
  | f + 1, [x] => simp [specParseExtensions] at h
  | f + 1, [x, y] => simp [specParseExtensions] at h
  | f + 1, [x, y, z] => simp [specParseExtensions] at h

theorem specParseEntries_cons {fuel : Nat} {remEnt : List Nat}
    {e : Nat × List Nat} {es : List (Nat × List Nat)}
    (h : specParseEntries fuel remEnt = some (e :: es)) :
    ∃ (f : Nat) (t hB loB : Nat) (rest : List Nat),
      fuel = f + 1 ∧ remEnt = t :: hB :: loB :: rest ∧
      u16be hB loB ≤ rest.length ∧ e = (t, rest.take (u16be hB loB)) ∧
      specParseEntries f (rest.drop (u16be hB loB)) = some es := by
  match fuel, remEnt with
  | _, [] => simp [specParseEntries] at h
  | 0, x :: rest => simp [specParseEntries] at h
  | f + 1, t :: hB :: loB :: rest =>
    rw [specParseEntries] at h
    split at h
    · rename_i hle
      split at h
      · rename_i es' hes
        refine ⟨f, t, hB, loB, rest, rfl, rfl, hle, ?_, ?_⟩
        · injection h with h2
          injection h2 with h3 h4
          exact h3.symm
        · rw [hes]
          injection h with h2
          injection h2 with h3 h4
          rw [h4]
      · exact absurd h (by simp)
    · exact absurd h (by simp)
  | f + 1, [x] => simp [specParseEntries] at h
  | f + 1, [x, y] => simp [specParseEntries] at h

theorem specParseSniBody_shape {sniBody : List Nat} {entries : List (Nat × List Nat)}
    (h : specParseSniBody sniBody = some entries) :
    ∃ (l1 l2 : Nat) (entBytes : List Nat),
      sniBody = l1 :: l2 :: entBytes ∧ entBytes.length = u16be l1 l2 ∧
      specParseEntries entBytes.length entBytes = some entries := by
  match sniBody with
  | [] => simp [specParseSniBody] at h
  | [x] => simp [specParseSniBody] at h
  | l1 :: l2 :: entBytes =>
    rw [specParseSniBody] at h
    split at h
    · rename_i hlen
      exact ⟨l1, l2, entBytes, rfl, hlen, h⟩
    · simp at h

theorem specParseClientHello_shape {b : List Nat} {exts : List (Nat × List Nat)}
    (h : specParseClientHello b = some exts) :
    ∃ (v r1 r2 h1 h2 h3 sl c1 c2 ml e1 e2 : Nat)
      (body rest1 rest2 rest3 rest4 : List Nat),
      b = 22 :: 3 :: v :: r1 :: r2 :: 1 :: h1 :: h2 :: h3 :: body ∧
      4 + body.length = u16be r1 r2 ∧
      body.length = h1 * 65536 + h2 * 256 + h3 ∧
      34 ≤ body.length ∧
      body.drop 34 = sl :: rest1 ∧ sl ≤ rest1.length ∧
      rest1.drop sl = c1 :: c2 :: rest2 ∧ u16be c1 c2 ≤ rest2.length ∧
      rest2.drop (u16be c1 c2) = ml :: rest3 ∧ ml ≤ rest3.length ∧
      rest3.drop ml = e1 :: e2 :: rest4 ∧ rest4.length = u16be e1 e2 ∧
      specParseExtensions rest4.length rest4 = some exts := by
  unfold specParseClientHello at h
  split at h
  any_goals exact Option.noConfusion h
  rename_i v r1 r2 rest
  split at h
  any_goals exact Option.noConfusion h
  rename_i hrl
  split at h
  any_goals exact Option.noConfusion h
  rename_i h1 h2 h3 body
  split at h
  any_goals exact Option.noConfusion h
  rename_i hhl
  rw [specParseChBody] at h
  split at h
  any_goals exact Option.noConfusion h
  rename_i h34
  split at h
  any_goals exact Option.noConfusion h
  rename_i sl rest1 hsid
  split at h
  any_goals exact Option.noConfusion h
  rename_i hsl
  split at h
  any_goals exact Option.noConfusion h
  rename_i c1 c2 rest2 hcs
  split at h
  any_goals exact Option.noConfusion h
  rename_i hcsl
  split at h
  any_goals exact Option.noConfusion h
  rename_i ml rest3 hcm
  split at h
  any_goals exact Option.noConfusion h
  rename_i hml
  split at h
  any_goals exact Option.noConfusion h
  rename_i e1 e2 rest4 hxt
  split at h
  any_goals exact Option.noConfusion h
  rename_i hel
  exact ⟨v, r1, r2, h1, h2, h3, sl, c1, c2, ml, e1, e2,
    body, rest1, rest2, rest3, rest4, rfl, by simp at hrl; omega, hhl, h34,
    hsid, hsl, hcs, hcsl, hcm, hml, hxt, hel, h⟩

theorem sniExtLoop_no_sni :
    ∀ (exts : List (Nat × List Nat)) (fuelS : Nat) (remExt b : List Nat) (pos fuel : Nat),
      specParseExtensions fuelS remExt = some exts →
      (∀ e ∈ exts, e.1 ≠ 0) →
      b.drop pos = remExt →
      pos ≤ b.length →
      remExt.length < fuel →
      sniExtLoop b b.length pos fuel = some (.error .InvalidSniFormat) := by
  intro exts
  induction exts with
  | nil =>
    intro fuelS remExt b pos fuel hparse _ hdrop hple hfuel
    have hnil := specParseExtensions_nil hparse
    subst hnil
    have hlen := drop_len_eq hple hdrop
    rcases fuel with _ | fu
    · omega
    rw [sniExtLoop, if_neg (by simp at hlen ⊢; omega)]
  | cons e es ih =>
    intro fuelS remExt b pos fuel hparse hne hdrop hple hfuel
    obtain ⟨f, t1, t2, l1, l2, rest, hf, hrem, hle, he, hinner⟩ :=
      specParseExtensions_cons hparse
    subst hrem
    have hlen := drop_len_eq hple hdrop
    simp only [List.length_cons] at hlen hfuel
    rcases fuel with _ | fu
    · omega
    rw [sniExtLoop, if_pos (by omega)]
    rw [rd_drop_cons hdrop, rd_drop_cons2 hdrop, rd_drop_cons3 hdrop, rd_drop_cons4 hdrop]
    dsimp only
    have hty : u16be t1 t2 ≠ 0 := by
      have := hne e (by simp)
      rw [he] at this
      exact this
    rw [if_neg hty]
    have hd2 : b.drop (pos + 4 + u16be l1 l2) = rest.drop (u16be l1 l2) := by
      rw [show pos + 4 + u16be l1 l2 = pos + (4 + u16be l1 l2) from by omega,
        dropAdd, hdrop,
        show 4 + u16be l1 l2 = u16be l1 l2 + 4 from by omega]
      rw [show (t1 :: t2 :: l1 :: l2 :: rest).drop (u16be l1 l2 + 4)
          = rest.drop (u16be l1 l2) from by
        rw [show u16be l1 l2 + 4 = 4 + u16be l1 l2 from by omega, dropAdd]
        rfl]
    exact ih f (rest.drop (u16be l1 l2)) b (pos + 4 + u16be l1 l2) fu hinner
      (fun x hx => hne x (by simp [hx])) hd2 (by omega)
      (by rw [List.length_drop]; omega)

theorem sniNameLoop_found :
    ∀ (pre2 : List (Nat × List Nat)) (fuelS : Nat) (remEnt tBytes b : List Nat)
      (post2 : List (Nat × List Nat)) (name : List Nat) (pos fuel : Nat),
      specParseEntries fuelS remEnt = some (pre2 ++ (0, name) :: post2) →
      (∀ e ∈ pre2, e.1 ≠ 0) →
      utf8Valid name →
      b.drop pos = remEnt ++ tBytes →
      pos ≤ b.length →
      remEnt.length < fuel →
      sniNameLoop b b.length pos fuel = some (.inl (.ok name)) := by
  intro pre2
  induction pre2 with
  | nil =>
    intro fuelS remEnt tBytes b post2 name pos fuel hparse _ hutf hdrop hple hfuel
    rw [List.nil_append] at hparse
    obtain ⟨f, t, hB, loB, rest5, hf, hrem, hle, he, hinner⟩ :=
      specParseEntries_cons hparse
    subst hrem
    have ht : t = 0 := (congrArg Prod.fst he).symm
    have hname : name = rest5.take (u16be hB loB) := congrArg Prod.snd he
    have hdrop' : b.drop pos = t :: hB :: loB :: (rest5 ++ tBytes) := by
      rw [hdrop]; rfl
    have hlen := drop_len_eq hple hdrop'
    simp only [List.length_cons, List.length_append] at hlen hfuel
    rcases fuel with _ | fu
    · omega
    rw [sniNameLoop, if_pos (by omega)]
    rw [rd_drop_cons hdrop', rd_drop_cons2 hdrop', rd_drop_cons3 hdrop']
    dsimp only
    rw [if_neg (by omega)]
    rw [if_pos ht]
    have hd3 : b.drop (pos + 3) = rest5 ++ tBytes := by
      rw [dropAdd, hdrop']; rfl
    rw [slice?_eq (by omega) (by omega)]
    dsimp only
    rw [show pos + 3 + u16be hB loB - (pos + 3) = u16be hB loB from by omega]
    rw [hd3, List.take_append_of_le_length hle, ← hname, if_pos hutf]
  | cons p pre2' ih =>
    intro fuelS remEnt tBytes b post2 name pos fuel hparse hne hutf hdrop hple hfuel
    rw [List.cons_append] at hparse
    obtain ⟨f, t, hB, loB, rest5, hf, hrem, hle, he, hinner⟩ :=
      specParseEntries_cons hparse
    subst hrem
    have ht : t ≠ 0 := by
      have := hne p (by simp)
      rw [he] at this
      exact this
    have hdrop' : b.drop pos = t :: hB :: loB :: (rest5 ++ tBytes) := by
      rw [hdrop]; rfl
    have hlen := drop_len_eq hple hdrop'
    simp only [List.length_cons, List.length_append] at hlen hfuel
    rcases fuel with _ | fu
    · omega
    rw [sniNameLoop, if_pos (by omega)]
    rw [rd_drop_cons hdrop', rd_drop_cons2 hdrop', rd_drop_cons3 hdrop']
    dsimp only
    rw [if_neg (by omega)]
    rw [if_neg ht]
    have hd3 : b.drop (pos + 3 + u16be hB loB) = rest5.drop (u16be hB loB) ++ tBytes := by
      rw [show pos + 3 + u16be hB loB = pos + 3 + u16be hB loB from rfl]
      rw [show pos + 3 + u16be hB loB = (pos + 3) + u16be hB loB from rfl, dropAdd]
      rw [dropAdd, hdrop']
      rw [show (t :: hB :: loB :: (rest5 ++ tBytes)).drop 3 = rest5 ++ tBytes from rfl]
      exact List.drop_append_of_le_length hle
    exact ih f (rest5.drop (u16be hB loB)) tBytes b post2 name (pos + 3 + u16be hB loB) fu
      hinner (fun x hx => hne x (by simp [hx])) hutf hd3 (by omega)
      (by rw [List.length_drop]; omega)

theorem sniExtLoop_sni_found :
    ∀ (pre : List (Nat × List Nat)) (fuelS : Nat) (remExt b : List Nat)
      (post : List (Nat × List Nat)) (sniBody : List Nat)
      (entries pre2 post2 : List (Nat × List Nat)) (name : List Nat) (pos fuel : Nat),
      specParseExtensions fuelS remExt = some (pre ++ (0, sniBody) :: post) →
      (∀ e ∈ pre, e.1 ≠ 0) →
      specParseSniBody sniBody = some entries →
      entries = pre2 ++ (0, name) :: post2 →
      (∀ e ∈ pre2, e.1 ≠ 0) →
      utf8Valid name →
      b.drop pos = remExt →
      pos ≤ b.length →
      remExt.length < fuel →
      sniExtLoop b b.length pos fuel = some (.ok name) := by
  intro pre
  induction pre with
  | nil =>
    intro fuelS remExt b post sniBody entries pre2 post2 name pos fuel hparse _ hsni
      hent hne2 hutf hdrop hple hfuel
    rw [List.nil_append] at hparse
    obtain ⟨f, t1, t2, l1, l2, rest, hf, hrem, hle, he, hinner⟩ :=
      specParseExtensions_cons hparse
    subst hrem
    have hty : u16be t1 t2 = 0 := (congrArg Prod.fst he).symm
    have hbody : sniBody = rest.take (u16be l1 l2) := congrArg Prod.snd he
    obtain ⟨l1s, l2s, entBytes, hbshape, hblen, hbparse⟩ := specParseSniBody_shape hsni
    have hlen := drop_len_eq hple hdrop
    simp only [List.length_cons] at hlen hfuel
    have hsblen : sniBody.length = u16be l1 l2 := by
      rw [hbody, List.length_take]
      omega
    have hsblen2 : sniBody.length = 2 + entBytes.length := by
      rw [hbshape]
      simp
      omega
    rcases fuel with _ | fu
    · omega
    rw [sniExtLoop, if_pos (by omega)]
    rw [rd_drop_cons hdrop, rd_drop_cons2 hdrop, rd_drop_cons3 hdrop, rd_drop_cons4 hdrop]
    dsimp only
    rw [if_pos hty]
    rw [if_neg (by omega)]
    rw [if_neg (by omega)]
    have hd4 : b.drop (pos + 4) = l1s :: l2s :: (entBytes ++ rest.drop (u16be l1 l2)) := by
      rw [dropAdd, hdrop]
      rw [show (t1 :: t2 :: l1 :: l2 :: rest).drop 4 = rest from rfl]
      conv_lhs => rw [← List.take_append_drop (u16be l1 l2) rest]
      rw [← hbody, hbshape]
      rfl
    rw [rd_drop_cons hd4, rd_drop_cons2 hd4]
    dsimp only
    rw [if_neg (by omega)]
    have hd6 : b.drop (pos + 6) = entBytes ++ rest.drop (u16be l1 l2) := by
      rw [show pos + 6 = (pos + 4) + 2 from by omega, dropAdd, hd4]
      rfl
    rw [sniNameLoop_found pre2 entBytes.length entBytes (rest.drop (u16be l1 l2)) b
      post2 name (pos + 6) (b.length + 1)
      (by rw [← hent]; exact hbparse) hne2 hutf hd6 (by omega) (by omega)]
  | cons p pre' ih =>
    intro fuelS remExt b post sniBody entries pre2 post2 name pos fuel hparse hne hsni
      hent hne2 hutf hdrop hple hfuel
    rw [List.cons_append] at hparse
    obtain ⟨f, t1, t2, l1, l2, rest, hf, hrem, hle, he, hinner⟩ :=
      specParseExtensions_cons hparse
    subst hrem
    have hty : u16be t1 t2 ≠ 0 := by
      have := hne p (by simp)
      rw [he] at this
      exact this
    have hlen := drop_len_eq hple hdrop
    simp only [List.length_cons] at hlen hfuel
    rcases fuel with _ | fu
    · omega
    rw [sniExtLoop, if_pos (by omega)]
    rw [rd_drop_cons hdrop, rd_drop_cons2 hdrop, rd_drop_cons3 hdrop, rd_drop_cons4 hdrop]
    dsimp only
    rw [if_neg hty]
    have hd2 : b.drop (pos + 4 + u16be l1 l2) = rest.drop (u16be l1 l2) := by
      rw [show pos + 4 + u16be l1 l2 = (pos + 4) + u16be l1 l2 from rfl, dropAdd, dropAdd,
        hdrop]
      rw [show (t1 :: t2 :: l1 :: l2 :: rest).drop 4 = rest from rfl]
    exact ih f (rest.drop (u16be l1 l2)) b post sniBody entries pre2 post2 name
      (pos + 4 + u16be l1 l2) fu hinner (fun x hx => hne x (by simp [hx])) hsni hent hne2
      hutf hd2 (by omega) (by rw [List.length_drop]; omega)

theorem extract_sni_reach
    {b body rest1 rest2 rest3 rest4 : List Nat}
    {v r1 r2 h1 h2 h3 sl c1 c2 ml e1 e2 : Nat}
    (hb : b = 22 :: 3 :: v :: r1 :: r2 :: 1 :: h1 :: h2 :: h3 :: body)
    (hrl : 4 + body.length = u16be r1 r2)
    (hhl : body.length = h1 * 65536 + h2 * 256 + h3)
    (h34 : 34 ≤ body.length)
    (hsid : body.drop 34 = sl :: rest1) (hsl : sl ≤ rest1.length)
    (hcs : rest1.drop sl = c1 :: c2 :: rest2) (hcsl : u16be c1 c2 ≤ rest2.length)
    (hcm : rest2.drop (u16be c1 c2) = ml :: rest3) (hml : ml ≤ rest3.length)
    (hext : rest3.drop ml = e1 :: e2 :: rest4) (hel : rest4.length = u16be e1 e2) :
    extract_sni b =
      sniExtLoop b b.length (5 + 4 + 2 + 32 + 1 + sl + 2 + u16be c1 c2 + 1 + ml + 2)
        (b.length + 1) ∧
    b.drop (5 + 4 + 2 + 32 + 1 + sl + 2 + u16be c1 c2 + 1 + ml + 2) = rest4 ∧
    5 + 4 + 2 + 32 + 1 + sl + 2 + u16be c1 c2 + 1 + ml + 2 + rest4.length = b.length := by
  have len9 : b.length = 9 + body.length := by rw [hb]; simp only [List.length_cons]; omega
  have len34 : body.length = 35 + rest1.length := by
    have h := congrArg List.length hsid
    rw [List.length_drop] at h
    simp only [List.length_cons] at h
    omega
  have lensl : rest1.length = sl + 2 + rest2.length := by
    have h := congrArg List.length hcs
    rw [List.length_drop] at h
    simp only [List.length_cons] at h
    omega
  have lencs : rest2.length = u16be c1 c2 + 1 + rest3.length := by
    have h := congrArg List.length hcm
    rw [List.length_drop] at h
    simp only [List.length_cons] at h
    omega
  have lenml : rest3.length = ml + 2 + rest4.length := by
    have h := congrArg List.length hext
    rw [List.length_drop] at h
    simp only [List.length_cons] at h
    omega
  have hb0 : rd b 0 = some 22 := by rw [hb]; rfl
  have hb1 : rd b 1 = some 3 := by rw [hb]; rfl
  have hb3 : rd b 3 = some r1 := by rw [hb]; rfl
  have hb4 : rd b 4 = some r2 := by rw [hb]; rfl
  have hb5 : rd b 5 = some 1 := by rw [hb]; rfl
  have hb6 : rd b 6 = some h1 := by rw [hb]; rfl
  have hb7 : rd b 7 = some h2 := by rw [hb]; rfl
  have hb8 : rd b 8 = some h3 := by rw [hb]; rfl
  have hd9 : b.drop 9 = body := by rw [hb]; rfl
  have hd43 : b.drop (5 + 4 + 2 + 32) = sl :: rest1 := by
    rw [show (5 + 4 + 2 + 32 : Nat) = 9 + 34 from rfl, dropAdd, hd9, hsid]
  have hd44 : b.drop (5 + 4 + 2 + 32 + 1 + sl) = c1 :: c2 :: rest2 := by
    rw [show (5 + 4 + 2 + 32 + 1 + sl : Nat) = 5 + 4 + 2 + 32 + (sl + 1) from by omega,
      dropAdd, hd43, List.drop_succ_cons, hcs]
  have hd46 : b.drop (5 + 4 + 2 + 32 + 1 + sl + 2 + u16be c1 c2) = ml :: rest3 := by
    rw [show (5 + 4 + 2 + 32 + 1 + sl + 2 + u16be c1 c2 : Nat)
        = 5 + 4 + 2 + 32 + 1 + sl + (u16be c1 c2 + 1 + 1) from by omega,
      dropAdd, hd44, List.drop_succ_cons, List.drop_succ_cons, hcm]
  have hd47 : b.drop (5 + 4 + 2 + 32 + 1 + sl + 2 + u16be c1 c2 + 1 + ml)
      = e1 :: e2 :: rest4 := by
    rw [show (5 + 4 + 2 + 32 + 1 + sl + 2 + u16be c1 c2 + 1 + ml : Nat)
        = 5 + 4 + 2 + 32 + 1 + sl + 2 + u16be c1 c2 + (ml + 1) from by omega,
      dropAdd, hd46, List.drop_succ_cons, hext]
  have hdPOS : b.drop (5 + 4 + 2 + 32 + 1 + sl + 2 + u16be c1 c2 + 1 + ml + 2) = rest4 := by
    rw [show (5 + 4 + 2 + 32 + 1 + sl + 2 + u16be c1 c2 + 1 + ml + 2 : Nat)
        = 5 + 4 + 2 + 32 + 1 + sl + 2 + u16be c1 c2 + 1 + ml + (1 + 1) from by omega,
      dropAdd, hd47]
    rfl
  refine ⟨?_, hdPOS, by omega⟩
  rw [extract_sni, if_neg (by omega)]
  rw [hb0, hb1, hb3, hb4]
  dsimp only
  rw [if_neg (by simp), if_neg (by simp), if_neg (by omega), if_neg (by omega)]
  rw [hb5, hb6, hb7, hb8]
  dsimp only
  rw [if_neg (by simp), if_neg (by omega), if_neg (by omega)]
  rw [rd_drop_cons hd43]
  dsimp only
  rw [if_neg (by omega)]
  rw [rd_drop_cons hd44, rd_drop_cons2 hd44]
  dsimp only
  rw [if_neg (by omega)]
  rw [rd_drop_cons hd46]
  dsimp only
  rw [if_neg (by omega)]
  rw [rd_drop_cons hd47, rd_drop_cons2 hd47]
  dsimp only
  rw [if_neg (by omega)]
  rw [show (5 + 4 + 2 + 32 + 1 + sl + 2 + u16be c1 c2 + 1 + ml + 2 + u16be e1 e2 : Nat)
      = b.length from by omega]

/-- C1 (amended): on a well-formed ClientHello (spec grammar, exact
lengths), `extract_sni` fails `InvalidSniFormat` when no SNI extension
is present, and returns the name of the first type-0 server_name entry
of the first SNI extension — whether or not that name is empty. -/
theorem c1_extract_sni_wellformed :
    (∀ (b : List Nat) (exts : List (Nat × List Nat)),
      specParseClientHello b = some exts → (∀ e ∈ exts, e.1 ≠ 0) →
      extract_sni b = some (.error .InvalidSniFormat)) ∧
    (∀ (b : List Nat) (pre post : List (Nat × List Nat)) (sniBody : List Nat)
      (entries pre2 post2 : List (Nat × List Nat)) (name : List Nat),
      specParseClientHello b = some (pre ++ (0, sniBody) :: post) →
      (∀ e ∈ pre, e.1 ≠ 0) →
      specParseSniBody sniBody = some entries →
      entries = pre2 ++ (0, name) :: post2 →
      (∀ e ∈ pre2, e.1 ≠ 0) →
      utf8Valid name →
      extract_sni b = some (.ok name)) := by
  constructor
  · intro b exts hch hne
    obtain ⟨v, r1, r2, h1, h2, h3, sl, c1, c2, ml, e1, e2, body, rest1, rest2, rest3,
      rest4, hb, hrl, hhl, h34, hsid, hsl, hcs, hcsl, hcm, hml, hext, hel, hparse⟩ :=
      specParseClientHello_shape hch
    obtain ⟨heq, hdPOS, hlen⟩ :=
      extract_sni_reach hb hrl hhl h34 hsid hsl hcs hcsl hcm hml hext hel
    rw [heq]
    exact sniExtLoop_no_sni exts rest4.length rest4 b _ _ hparse hne hdPOS (by omega)
      (by omega)
  · intro b pre post sniBody entries pre2 post2 name hch hne hsni hent hne2 hutf
    obtain ⟨v, r1, r2, h1, h2, h3, sl, c1, c2, ml, e1, e2, body, rest1, rest2, rest3,
      rest4, hb, hrl, hhl, h34, hsid, hsl, hcs, hcsl, hcm, hml, hext, hel, hparse⟩ :=
      specParseClientHello_shape hch
    obtain ⟨heq, hdPOS, hlen⟩ :=
      extract_sni_reach hb hrl hhl h34 hsid hsl hcs hcsl hcm hml hext hel
    rw [heq]
    exact sniExtLoop_sni_found pre rest4.length rest4 b post sniBody entries pre2 post2
      name _ _ hparse hne hsni hent hne2 hutf hdPOS (by omega) (by omega)

/-- Counterexample for C1 as stated.  First: `sniEmptyNameRec` is
well-formed and its only server_name entry has type 0 and an *empty*
name, yet `extract_sni` succeeds (returning the empty hostname), so a
hostname is returned for a record with no non-empty server_name entry.
Second: the source's own test vector `sniExampleRec` is *not*
well-formed (its declared record and handshake lengths under-count the
actual bytes, so the exact grammar rejects it), yet `extract_sni`
returns `example` — refuting the other direction of the claimed
equivalence. -/
theorem c1_counterexample :
    extract_sni sniEmptyNameRec = some (.ok []) ∧
    specParseClientHello sniEmptyNameRec = some [(0, [0, 3, 0, 0, 0])] ∧
    specParseSniBody [0, 3, 0, 0, 0] = some [(0, [])] ∧
    extract_sni sniExampleRec = some (.ok [101, 120, 97, 109, 112, 108, 101]) ∧
    specParseClientHello sniExampleRec = none :=
  ⟨rfl, rfl, rfl, rfl, rfl⟩

/-- Witness for C1: the amended theorem applied to a fully well-formed
ClientHello carrying SNI `example`, and to a well-formed ClientHello
whose only extension is non-SNI. -/
theorem c1_witness :
    extract_sni sniWellFormedRec = some (.ok [101, 120, 97, 109, 112, 108, 101]) ∧
    extract_sni noSniRec = some (.error .InvalidSniFormat) :=
  ⟨c1_extract_sni_wellformed.2 sniWellFormedRec [] []
      [0, 10, 0, 0, 7, 101, 120, 97, 109, 112, 108, 101]
      [(0, [101, 120, 97, 109, 112, 108, 101])] [] []
      [101, 120, 97, 109, 112, 108, 101]
      rfl (by simp) rfl rfl (by simp) rfl,
   c1_extract_sni_wellformed.1 noSniRec [(1, [])] rfl (by decide)⟩

theorem tailIs_iff {pat l : List Nat} : tailIs pat l = true ↔ pat <:+ l := by
  rw [tailIs]
  constructor
  · intro h
    rw [Bool.and_eq_true] at h
    obtain ⟨h1, h2⟩ := h
    rw [decide_eq_true_eq] at h1
    rw [beq_iff_eq] at h2
    rw [← h2]
    exact List.drop_suffix _ _
  · intro h
    obtain ⟨pre, hpre⟩ := h
    have hlen : pat.length ≤ l.length := by
      rw [← hpre]
      simp
    rw [Bool.and_eq_true, decide_eq_true_eq, beq_iff_eq]
    refine ⟨hlen, ?_⟩
    rw [← hpre]
    rw [show (pre ++ pat).length - pat.length = pre.length from by simp]
    simp [List.drop_append_of_le_length]

/-- C6: the allowlist pattern match characterised: exact equality, the
`*.domain` form (equality with the domain or a `.domain` suffix), any
other `*`-led pattern as a plain suffix match (so `*` alone matches
everything), and admission exactly when some lowercased pattern matches
the lowercased host. -/
theorem c6_allowlist :
    (∀ h p : List Nat, matches_allowlist_pattern h p = true ↔
      (p = h ∨
       (∃ d, p = 42 :: 46 :: d ∧ (h = d ∨ (46 :: d) <:+ h)) ∨
       (∃ s, p = 42 :: s ∧ (∀ d, s ≠ 46 :: d) ∧ s <:+ h))) ∧
    (∀ h : List Nat, matches_allowlist_pattern h [42] = true) ∧
    (∀ (host : List Nat) (allowlist : List (List Nat)),
      is_host_allowed host allowlist = true ↔
      ∃ p ∈ allowlist,
        matches_allowlist_pattern (asciiLower host) (asciiLower p) = true) := by
  have hchar : ∀ h p : List Nat, matches_allowlist_pattern h p = true ↔
      (p = h ∨
       (∃ d, p = 42 :: 46 :: d ∧ (h = d ∨ (46 :: d) <:+ h)) ∨
       (∃ s, p = 42 :: s ∧ (∀ d, s ≠ 46 :: d) ∧ s <:+ h)) := by
    intro h p
    unfold matches_allowlist_pattern
    by_cases heq : p = h
    · rw [if_pos (by simp [heq])]
      simp [heq]
    · rw [if_neg (by simp [heq])]
      constructor
      · intro hm
        split at hm
        · rename_i ppat d
          right; left
          refine ⟨d, rfl, ?_⟩
          rw [Bool.or_eq_true] at hm
          rcases hm with hm | hm
          · right; exact tailIs_iff.mp hm
          · left; rw [beq_iff_eq] at hm; exact hm
        · rename_i ppat s hno
          right; right
          refine ⟨s, rfl, ?_, tailIs_iff.mp hm⟩
          intro d hd
          exact hno d hd
        · exact absurd hm (by simp)
      · intro hrhs
        split
        · rename_i ppat d
          rcases hrhs with hrhs | hrhs | hrhs
          · exact absurd hrhs heq
          · obtain ⟨d2, hp2, hd2⟩ := hrhs
            simp only [List.cons.injEq, true_and] at hp2
            subst hp2
            rw [Bool.or_eq_true, beq_iff_eq]
            rcases hd2 with hd2 | hd2
            · right; exact hd2
            · left; exact tailIs_iff.mpr hd2
          · obtain ⟨s, hp2, hns, _⟩ := hrhs
            simp only [List.cons.injEq, true_and] at hp2
            exact absurd hp2.symm (hns d)
        · rename_i ppat s hno
          rcases hrhs with hrhs | hrhs | hrhs
          · exact absurd hrhs heq
          · obtain ⟨d2, hp2, _⟩ := hrhs
            simp only [List.cons.injEq, true_and] at hp2
            exact absurd hp2 (fun hh => hno d2 hh)
          · obtain ⟨s2, hp2, _, hsuf⟩ := hrhs
            simp only [List.cons.injEq, true_and] at hp2
            subst hp2
            exact tailIs_iff.mpr hsuf
        · rename_i ppat hno1 hno2
          rcases hrhs with hrhs | hrhs | hrhs
          · exact absurd hrhs heq
          · obtain ⟨d2, hp2, _⟩ := hrhs
            exact absurd hp2 (fun hh => hno1 d2 hh)
          · obtain ⟨s2, hp2, _, _⟩ := hrhs
            exact absurd hp2 (fun hh => hno2 s2 hh)
  refine ⟨hchar, ?_, ?_⟩
  · intro h
    rw [hchar]
    right; right
    exact ⟨[], rfl, fun d => by simp, List.nil_suffix⟩
  · intro host allowlist
    rw [is_host_allowed]
    by_cases hstar : allowlist.contains [42]
    · rw [if_pos hstar]
      simp only [true_iff]
      refine ⟨[42], ?_, ?_⟩
      · exact List.elem_iff.mp hstar
      · rw [hchar]
        right; right
        exact ⟨[], rfl, fun d => by simp, List.nil_suffix⟩
    · rw [if_neg hstar]
      rw [List.any_eq_true]

/-- C7 (amended): with the pool enabled, `get` vends the first entry (in
most-recent-first pop order) that is valid *and* passes the Keep-Alive
reuse test, discarding every entry popped before it; the vended entry is
never stale (age within `connection_ttl`, idle time within
`idle_timeout`), and `None` is returned exactly when no entry passes the
reuse test. -/
theorem c7_pool_get (cfg : PoolConfig) (now : Nat) (bucket : List PooledConnection)
    (hen : cfg.enabled = true) :
    (pool_get cfg now bucket).1 =
      (bucket.find? (pool_reusable cfg now)).map (fun c => mark_used c now) ∧
    (pool_get cfg now bucket).2 =
      (bucket.dropWhile (fun c => !pool_reusable cfg now c)).drop 1 ∧
    (∀ c, (pool_get cfg now bucket).1 = some c →
      ∃ c0, bucket.find? (pool_reusable cfg now) = some c0 ∧ c = mark_used c0 now ∧
        now - c0.created_at ≤ cfg.connection_ttl ∧
        now - c0.last_used ≤ cfg.idle_timeout) ∧
    ((pool_get cfg now bucket).1 = none ↔
      ∀ c ∈ bucket, pool_reusable cfg now c = false) := by
  have hloop : ∀ bkt : List PooledConnection,
      pool_get_loop cfg now bkt =
        ((bkt.find? (pool_reusable cfg now)).map (fun c => mark_used c now),
         (bkt.dropWhile (fun c => !pool_reusable cfg now c)).drop 1) := by
    intro bkt
    induction bkt with
    | nil => rfl
    | cons c rest ih =>
      rw [pool_get_loop]
      by_cases hv : conn_is_valid c cfg.connection_ttl cfg.idle_timeout now
      · rw [if_neg (by simp [hv])]
        by_cases hk : cfg.keep_alive_enabled && !can_keep_alive c cfg.max_requests_per_connection
        · rw [if_pos (by simp [hv, hk])]
          rw [ih]
          have hr : pool_reusable cfg now c = false := by
            simp [pool_reusable, hv, hk]
          rw [List.find?_cons_of_neg _ (by simp [hr]),
            List.dropWhile_cons_of_pos (by simp [hr])]
        · rw [if_neg (by simp_all)]
          have hkb : (cfg.keep_alive_enabled &&
              !can_keep_alive c cfg.max_requests_per_connection) = false := by
            revert hk
            cases cfg.keep_alive_enabled &&
              !can_keep_alive c cfg.max_requests_per_connection <;> simp
          have hr : pool_reusable cfg now c = true := by
            simp [pool_reusable, hv, hkb]
          rw [List.find?_cons_of_pos _ (by simp [hr]),
            List.dropWhile_cons_of_neg (by simp [hr])]
          rfl
      · rw [if_pos (by simp [hv])]
        rw [ih]
        have hvb : conn_is_valid c cfg.connection_ttl cfg.idle_timeout now = false := by
          revert hv
          cases conn_is_valid c cfg.connection_ttl cfg.idle_timeout now <;> simp
        have hr : pool_reusable cfg now c = false := by
          simp [pool_reusable, hvb]
        rw [List.find?_cons_of_neg _ (by simp [hr]),
          List.dropWhile_cons_of_pos (by simp [hr])]
  have hget : pool_get cfg now bucket = pool_get_loop cfg now bucket := by
    rw [pool_get, if_neg (by simp [hen])]
  rw [hget, hloop]
  refine ⟨rfl, rfl, ?_, ?_⟩
  · intro c hc
    rw [Option.map_eq_some'] at hc
    obtain ⟨c0, hc0, hcm⟩ := hc
    have hr := List.find?_some hc0
    rw [pool_reusable, Bool.and_eq_true] at hr
    obtain ⟨hval, _⟩ := hr
    rw [conn_is_valid, Bool.and_eq_true] at hval
    obtain ⟨hexp, hidle⟩ := hval
    rw [Bool.not_eq_eq_eq_not, Bool.not_true, conn_is_expired] at hexp
    rw [Bool.not_eq_eq_eq_not, Bool.not_true, conn_is_idle] at hidle
    simp only [decide_eq_false_iff_not, not_lt] at hexp hidle
    exact ⟨c0, hc0, hcm.symm, by omega, by omega⟩
  · rw [Option.map_eq_none']
    rw [List.find?_eq_none]
    constructor
    · intro hall c hcm
      have := hall c hcm
      simp at this
      exact this
    · intro hall c hcm
      simp [hall c hcm]

/-- Witness for C7: the characterisation applied to an enabled pool and
a bucket holding one expired entry (popped and evicted) in front of one
fresh entry (vended). -/
theorem c7_witness :
    (pool_get ⟨100, 60, 30, true, true, 1000, 60⟩ 100
        [⟨1, 0, 0, true, 0⟩, ⟨2, 90, 90, true, 0⟩]).1 =
      ([(⟨1, 0, 0, true, 0⟩ : PooledConnection), ⟨2, 90, 90, true, 0⟩].find?
          (pool_reusable ⟨100, 60, 30, true, true, 1000, 60⟩ 100)).map
        (fun c => mark_used c 100) :=
  (c7_pool_get ⟨100, 60, 30, true, true, 1000, 60⟩ 100
    [⟨1, 0, 0, true, 0⟩, ⟨2, 90, 90, true, 0⟩] rfl).1

/-- Counterexample for C7 as stated: an enabled pool with ordinary
timeouts holds a single entry that is valid (neither expired nor idle),
yet `get` returns `None` and empties the bucket — the entry is evicted
by the Keep-Alive test (here `max_requests_per_connection = 0`), a
third eviction criterion the claim's description of the scan omits. -/
theorem c7_counterexample :
    conn_is_valid ⟨7, 5, 5, true, 0⟩ 60 30 5 = true ∧
    pool_get ⟨100, 60, 30, true, true, 0, 60⟩ 5 [⟨7, 5, 5, true, 0⟩] = (none, []) :=
  ⟨rfl, rfl⟩

/-- C8 (amended): `put` returns false exactly when the pool is disabled
or the bucket is at `max_per_host` (leaving the bucket unchanged), else
pushes a fresh entry with both timestamps `now`; and the put/get round
trip holds provided additionally that, when Keep-Alive is enabled,
`max_requests_per_connection` is positive. -/
theorem c8_pool_put_get (cfg : PoolConfig) (now : Nat) (bucket : List PooledConnection)
    (s : Nat) :
    ((pool_put cfg now bucket s).1 = false ↔
      cfg.enabled = false ∨ cfg.max_per_host ≤ bucket.length) ∧
    ((pool_put cfg now bucket s).1 = true →
      (pool_put cfg now bucket s).2 = PooledConnection.new s now :: bucket) ∧
    ((pool_put cfg now bucket s).1 = false → (pool_put cfg now bucket s).2 = bucket) ∧
    (PooledConnection.new s now).created_at = now ∧
    (PooledConnection.new s now).last_used = now ∧
    (cfg.enabled = true →
      (cfg.keep_alive_enabled = true → 0 < cfg.max_requests_per_connection) →
      ∀ b1, pool_put cfg now [] s = (true, b1) →
        pool_get cfg now b1 = (some (mark_used (PooledConnection.new s now) now), []) ∧
        pool_get cfg now [] = (none, [])) := by
  refine ⟨?_, ?_, ?_, rfl, rfl, ?_⟩
  · rw [pool_put]
    rcases hen : cfg.enabled with _ | _
    · simp
    · simp only [Bool.not_true, if_false]
      by_cases hfull : bucket.length ≥ cfg.max_per_host
      · rw [if_pos hfull]
        simp [hfull]
      · rw [if_neg hfull]
        simp
        omega
  · rw [pool_put]
    rcases hen : cfg.enabled with _ | _
    · simp
    · simp only [Bool.not_true, if_false]
      by_cases hfull : bucket.length ≥ cfg.max_per_host
      · rw [if_pos hfull]
        simp
      · rw [if_neg hfull]
        simp
  · rw [pool_put]
    rcases hen : cfg.enabled with _ | _
    · simp
    · simp only [Bool.not_true, if_false]
      by_cases hfull : bucket.length ≥ cfg.max_per_host
      · rw [if_pos hfull]
        simp
      · rw [if_neg hfull]
        simp
  · intro hen hka b1 hput
    rw [pool_put, hen] at hput
    simp only [Bool.not_true, if_false] at hput
    by_cases hfull : (([] : List PooledConnection)).length ≥ cfg.max_per_host
    · rw [if_pos hfull] at hput
      simp at hput
    · rw [if_neg hfull] at hput
      have hb1 : b1 = [PooledConnection.new s now] := by
        have := congrArg Prod.snd hput
        exact this.symm
      subst hb1
      constructor
      · rw [pool_get, if_neg (by simp [hen])]
        rw [pool_get_loop]
        rw [if_neg (by
          simp only [conn_is_valid, conn_is_expired, conn_is_idle, PooledConnection.new]
          simp)]
        rw [if_neg (by
          simp only [can_keep_alive, PooledConnection.new, Bool.not_eq_true]
          rcases hkab : cfg.keep_alive_enabled with _ | _
          · simp
          · simp only [Bool.true_and]
            have := hka hkab
            simp [this])]
      · rw [pool_get, if_neg (by simp [hen])]
        rfl

/-- Witness for C8: the round trip instantiated with defaulted
Keep-Alive settings. -/
theorem c8_witness :
    pool_get ⟨100, 60, 30, true, true, 1000, 60⟩ 5 [PooledConnection.new 7 5] =
      (some (mark_used (PooledConnection.new 7 5) 5), []) ∧
    pool_get ⟨100, 60, 30, true, true, 1000, 60⟩ 5 [] = (none, []) :=
  (c8_pool_put_get ⟨100, 60, 30, true, true, 1000, 60⟩ 5 [] 7).2.2.2.2.2 rfl
    (fun _ => by decide) [PooledConnection.new 7 5] rfl

/-- Counterexample for C8 as stated: pool enabled, ordinary timeouts,
`put` into an empty bucket succeeds, yet the immediately following first
`get` yields `None` rather than a stream — the fresh entry fails the
Keep-Alive reuse test because `max_requests_per_connection = 0`. -/
theorem c8_counterexample :
    pool_put ⟨100, 60, 30, true, true, 0, 60⟩ 5 [] 7 =
      (true, [PooledConnection.new 7 5]) ∧
    pool_get ⟨100, 60, 30, true, true, 0, 60⟩ 5 [PooledConnection.new 7 5] = (none, []) :=
  ⟨rfl, rfl⟩

/-- C5 (amended): the classifier decides in strict order — HTTP/2
preface, then method tokens (the first line is decoded as UTF-8: it
yields Http10 when it contains `HTTP/1.0`, Http11 when it contains
`HTTP/1.1` but not `HTTP/1.0`, Http11 when it contains neither, Http11
when it is not valid UTF-8 and Http11 when no line terminator is
present), then `SSH-`, then the TLS marker 0x16, else Unknown. -/
theorem c5_detect_protocol :
    (∀ peek : List Nat, leadsWith HTTP2_PREFACE peek = true →
      detect_protocol peek = .Http2) ∧
    (∀ (peek : List Nat) (p : Nat), leadsWith HTTP2_PREFACE peek = false →
      HTTP_METHODS.any (fun m => leadsWith m peek) = true →
      peek.findIdx? (fun b => b == 10) = some p →
      utf8Valid (peek.take p) = true → hasSub http10Bytes (peek.take p) = true →
      detect_protocol peek = .Http10) ∧
    (∀ (peek : List Nat) (p : Nat), leadsWith HTTP2_PREFACE peek = false →
      HTTP_METHODS.any (fun m => leadsWith m peek) = true →
      peek.findIdx? (fun b => b == 10) = some p →
      utf8Valid (peek.take p) = true → hasSub http10Bytes (peek.take p) = false →
      hasSub http11Bytes (peek.take p) = true →
      detect_protocol peek = .Http11) ∧
    (∀ (peek : List Nat) (p : Nat), leadsWith HTTP2_PREFACE peek = false →
      HTTP_METHODS.any (fun m => leadsWith m peek) = true →
      peek.findIdx? (fun b => b == 10) = some p →
      utf8Valid (peek.take p) = true → hasSub http10Bytes (peek.take p) = false →
      hasSub http11Bytes (peek.take p) = false →
      detect_protocol peek = .Http11) ∧
    (∀ (peek : List Nat) (p : Nat), leadsWith HTTP2_PREFACE peek = false →
      HTTP_METHODS.any (fun m => leadsWith m peek) = true →
      peek.findIdx? (fun b => b == 10) = some p →
      utf8Valid (peek.take p) = false →
      detect_protocol peek = .Http11) ∧
    (∀ peek : List Nat, leadsWith HTTP2_PREFACE peek = false →
      HTTP_METHODS.any (fun m => leadsWith m peek) = true →
      peek.findIdx? (fun b => b == 10) = none →
      detect_protocol peek = .Http11) ∧
    (∀ peek : List Nat, leadsWith HTTP2_PREFACE peek = false →
      HTTP_METHODS.any (fun m => leadsWith m peek) = false →
      leadsWith SSH_VERSION_PREFIX peek = true →
      detect_protocol peek = .Ssh) ∧
    (∀ peek : List Nat, leadsWith HTTP2_PREFACE peek = false →
      HTTP_METHODS.any (fun m => leadsWith m peek) = false →
      leadsWith SSH_VERSION_PREFIX peek = false →
      peek ≠ [] → peek.getD 0 0 = 22 →
      detect_protocol peek = .Tls) ∧
    (∀ peek : List Nat, leadsWith HTTP2_PREFACE peek = false →
      HTTP_METHODS.any (fun m => leadsWith m peek) = false →
      leadsWith SSH_VERSION_PREFIX peek = false →
      (peek = [] ∨ peek.getD 0 0 ≠ 22) →
      detect_protocol peek = .Unknown) := by
  refine ⟨?_, ?_, ?_, ?_, ?_, ?_, ?_, ?_, ?_⟩
  · intro peek h
    rw [detect_protocol, if_pos h]
  · intro peek p h1 h2 h3 h4 h5
    rw [detect_protocol, if_neg (by simp [h1]), if_pos h2, h3]
    dsimp only
    rw [detect_http_version, if_pos h4, if_pos h5]
  · intro peek p h1 h2 h3 h4 h5 h6
    rw [detect_protocol, if_neg (by simp [h1]), if_pos h2, h3]
    dsimp only
    rw [detect_http_version, if_pos h4, if_neg (by simp [h5]), if_pos h6]
  · intro peek p h1 h2 h3 h4 h5 h6
    rw [detect_protocol, if_neg (by simp [h1]), if_pos h2, h3]
    dsimp only
    rw [detect_http_version, if_pos h4, if_neg (by simp [h5]), if_neg (by simp [h6])]
  · intro peek p h1 h2 h3 h4
    rw [detect_protocol, if_neg (by simp [h1]), if_pos h2, h3]
    dsimp only
    rw [detect_http_version, if_neg (by simp [h4])]
  · intro peek h1 h2 h3
    rw [detect_protocol, if_neg (by simp [h1]), if_pos h2, h3]
  · intro peek h1 h2 h3
    rw [detect_protocol, if_neg (by simp [h1]), if_neg (by simp [h2]), if_pos h3]
  · intro peek h1 h2 h3 h4 h5
    rcases peek with _ | ⟨a, rest⟩
    · exact absurd rfl h4
    · have ha : a = 22 := h5
      rw [detect_protocol, if_neg (by simp [h1]), if_neg (by simp [h2]),
        if_neg (by simp [h3]), if_pos (by simp [ha])]
  · intro peek h1 h2 h3 h4
    rcases peek with _ | ⟨a, rest⟩
    · rfl
    · rcases h4 with h4 | h4
      · exact absurd h4 (by simp)
      · have ha : a ≠ 22 := h4
        rw [detect_protocol, if_neg (by simp [h1]), if_neg (by simp [h2]),
          if_neg (by simp [h3]), if_neg (by simp [ha])]

/-- Witness for C5: every branch of the classifier instantiated,
including the concrete peeks of the specification's test scenarios. -/
theorem c5_witness :
    detect_protocol HTTP2_PREFACE = .Http2 ∧
    detect_protocol [71, 69, 84, 32, 47, 32, 72, 84, 84, 80, 47, 49, 46, 48, 10] = .Http10 ∧
    detect_protocol [71, 69, 84, 32, 47, 32, 72, 84, 84, 80, 47, 49, 46, 49, 13, 10] =
      .Http11 ∧
    detect_protocol [71, 69, 84, 32, 120] = .Http11 ∧
    detect_protocol [83, 83, 72, 45, 50, 46, 48] = .Ssh ∧
    detect_protocol [22, 3, 3, 0, 5] = .Tls ∧
    detect_protocol [0, 1, 2, 3] = .Unknown :=
  ⟨c5_detect_protocol.1 HTTP2_PREFACE rfl,
   c5_detect_protocol.2.1 _ 14 rfl rfl rfl rfl rfl,
   c5_detect_protocol.2.2.1 _ 15 rfl rfl rfl rfl rfl rfl,
   c5_detect_protocol.2.2.2.2.2.1 _ rfl rfl rfl,
   c5_detect_protocol.2.2.2.2.2.2.1 _ rfl rfl rfl,
   c5_detect_protocol.2.2.2.2.2.2.2.1 _ rfl rfl rfl (by decide) rfl,
   c5_detect_protocol.2.2.2.2.2.2.2.2 _ rfl rfl rfl (.inr (by decide))⟩

/-- Counterexample for C5 as stated: `getBadUtf8Peek` starts with the
`GET ` method token and its first line contains the byte substring
`HTTP/1.0`, yet the classifier returns Http11, not the claimed Http10 —
the line contains the invalid UTF-8 byte 0xFF, so `detect_http_version`
falls back to its default. -/
theorem c5_counterexample :
    leadsWith [71, 69, 84, 32] getBadUtf8Peek = true ∧
    getBadUtf8Peek.findIdx? (fun b => b == 10) = some 13 ∧
    hasSub http10Bytes (getBadUtf8Peek.take 13) = true ∧
    detect_protocol getBadUtf8Peek = .Http11 ∧
    Protocol.Http11 ≠ Protocol.Http10 :=
  ⟨rfl, rfl, rfl, rfl, by decide⟩

/-- C10 (amended): a header block that is not valid UTF-8 yields no Host
result (so `extract_host` fails `NoHostHeader` even if a `Host:` line is
byte-wise present); any `host:` line of byte length 5 or less is
skipped, so a bare `Host:` header yields `NoHostHeader`, while a longer
line such as `Host: ` (whose value trims to nothing) yields the *empty*
hostname rather than `NoHostHeader`. -/
theorem c10_host_header :
    (∀ block : List Nat, utf8Valid block = false → extract_host_header block = some none) ∧
    (∀ (chunk : List Nat) (rest : List (List Nat)) (buffer : List Nat) (total he : Nat),
      chunk ≠ [] → find_headers_end (buffer ++ chunk) = some he →
      utf8Valid ((buffer ++ chunk).take he) = false →
      extract_host_loop (chunk :: rest) buffer total = some (.error .NoHostHeader)) ∧
    (∀ (line : List Nat) (rest : List (List Nat)), line.length ≤ 5 →
      hostLineScan (line :: rest) = hostLineScan rest) ∧
    (∀ (line : List Nat) (rest : List (List Nat)), 5 < line.length →
      isCont (line.getD 5 0) = false →
      eqIgnoreAsciiCase (line.take 5) hostColonBytes = true →
      hostLineScan (line :: rest) = some (some (rustTrim (line.drop 5)))) ∧
    extract_host_header [72, 111, 115, 116, 58, 32, 13, 10, 13, 10] = some (some []) ∧
    extract_host_header [72, 111, 115, 116, 58, 13, 10, 13, 10] = some none := by
  refine ⟨?_, ?_, ?_, ?_, rfl, rfl⟩
  · intro block hu
    rw [extract_host_header, if_neg (by simp [hu])]
  · intro chunk rest buffer total he hne hfind hu
    rw [extract_host_loop]
    rw [if_neg (by simp [hne])]
    dsimp only
    rw [hfind]
    dsimp only
    rw [extract_host_header, if_neg (by simp [hu])]
  · intro line rest hlen
    rw [hostLineScan, if_neg (by omega)]
  · intro line rest hlen hcont hmatch
    rw [hostLineScan, if_pos hlen, if_neg (by simp only [Bool.not_eq_true]; exact hcont),
      if_pos hmatch]

/-- Witness for C10: each clause instantiated — an invalid-UTF-8 block,
a full `extract_host` read whose header block is invalid UTF-8, a bare
`host:` line (length 5, skipped), and a `Host: ` line cut at byte 5. -/
theorem c10_witness :
    extract_host_header [255] = some none ∧
    extract_host_loop [[72, 255, 13, 10, 13, 10]] [] 0 = some (.error .NoHostHeader) ∧
    hostLineScan [[104, 111, 115, 116, 58]] = hostLineScan [] ∧
    hostLineScan [[72, 111, 115, 116, 58, 32]] = some (some (rustTrim [32])) :=
  ⟨c10_host_header.1 [255] rfl,
   c10_host_header.2.1 [72, 255, 13, 10, 13, 10] [] [] 0 6 (by decide) rfl rfl,
   c10_host_header.2.2.1 [104, 111, 115, 116, 58] [] (by decide),
   c10_host_header.2.2.2.1 [72, 111, 115, 116, 58, 32] [] (by decide) rfl rfl⟩

/-- Counterexample for C10 as stated: the stream
`GET / HTTP/1.1\r\nHost: \r\n\r\n` carries a Host header whose value is
empty after trimming, yet `extract_host` succeeds with the empty
hostname instead of failing `NoHostHeader`. -/
theorem c10_counterexample :
    extract_host [hostEmptyValueChunk] = some (.ok ([], 26)) ∧
    extract_host [hostEmptyValueChunk] ≠ some (.error .NoHostHeader) :=
  ⟨rfl, by decide⟩

/-- C9: the frame reader parses the 24-bit length and 8-bit type from
the 9-byte frame header; any type other than 0x1 fails
`Http2FrameError`; a zero or over-16384 payload length fails
`Http2FrameError`; and when both heuristics (the literal `:authority`
scan with its 10-offset value probe, then the 0x01/0x41/0x81
static-index scan) yield nothing, the call fails `Http2FrameError`. -/
theorem c9_http2_authority :
    (∀ (b0 b1 b2 b3 b4 b5 b6 b7 b8 : Nat) (rest : List Nat), b3 ≠ 1 →
      extract_http2_authority (b0 :: b1 :: b2 :: b3 :: b4 :: b5 :: b6 :: b7 :: b8 :: rest) =
        .error .Http2FrameError) ∧
    (∀ (b0 b1 b2 b4 b5 b6 b7 b8 : Nat) (rest : List Nat),
      b0 * 65536 + b1 * 256 + b2 = 0 ∨ b0 * 65536 + b1 * 256 + b2 > 16384 →
      extract_http2_authority (b0 :: b1 :: b2 :: 1 :: b4 :: b5 :: b6 :: b7 :: b8 :: rest) =
        .error .Http2FrameError) ∧
    (∀ (b0 b1 b2 b4 b5 b6 b7 b8 : Nat) (rest : List Nat),
      1 ≤ b0 * 65536 + b1 * 256 + b2 → b0 * 65536 + b1 * 256 + b2 ≤ 16384 →
      b0 * 65536 + b1 * 256 + b2 ≤ rest.length →
      authLiteralScan (rest.take (b0 * 65536 + b1 * 256 + b2)) = none →
      authIndexScan (rest.take (b0 * 65536 + b1 * 256 + b2))
        ((rest.take (b0 * 65536 + b1 * 256 + b2)).length - 20) 0 = none →
      extract_http2_authority (b0 :: b1 :: b2 :: 1 :: b4 :: b5 :: b6 :: b7 :: b8 :: rest) =
        .error .Http2FrameError) := by
  refine ⟨?_, ?_, ?_⟩
  · intro b0 b1 b2 b3 b4 b5 b6 b7 b8 rest hne
    rw [extract_http2_authority]
    rw [if_neg (by simp only [List.length_cons]; omega)]
    rw [if_pos (by
      show ¬((b0 :: b1 :: b2 :: b3 :: b4 :: b5 :: b6 :: b7 :: b8 :: rest).take 9).getD 3 0 = 1
      exact hne)]
  · intro b0 b1 b2 b4 b5 b6 b7 b8 rest hlen
    have g0 : ((b0 :: b1 :: b2 :: (1:Nat) :: b4 :: b5 :: b6 :: b7 :: b8 :: rest).take 9).getD
        0 0 = b0 := rfl
    have g1 : ((b0 :: b1 :: b2 :: (1:Nat) :: b4 :: b5 :: b6 :: b7 :: b8 :: rest).take 9).getD
        1 0 = b1 := rfl
    have g2 : ((b0 :: b1 :: b2 :: (1:Nat) :: b4 :: b5 :: b6 :: b7 :: b8 :: rest).take 9).getD
        2 0 = b2 := rfl
    have g3 : ((b0 :: b1 :: b2 :: (1:Nat) :: b4 :: b5 :: b6 :: b7 :: b8 :: rest).take 9).getD
        3 0 = 1 := rfl
    rw [extract_http2_authority]
    rw [if_neg (by simp only [List.length_cons]; omega)]
    dsimp only
    rw [g0, g1, g2, g3]
    rw [if_neg (by simp)]
    rw [if_pos hlen]
  · intro b0 b1 b2 b4 b5 b6 b7 b8 rest hge hle hfit hlit hidx
    have g0 : ((b0 :: b1 :: b2 :: (1:Nat) :: b4 :: b5 :: b6 :: b7 :: b8 :: rest).take 9).getD
        0 0 = b0 := rfl
    have g1 : ((b0 :: b1 :: b2 :: (1:Nat) :: b4 :: b5 :: b6 :: b7 :: b8 :: rest).take 9).getD
        1 0 = b1 := rfl
    have g2 : ((b0 :: b1 :: b2 :: (1:Nat) :: b4 :: b5 :: b6 :: b7 :: b8 :: rest).take 9).getD
        2 0 = b2 := rfl
    have g3 : ((b0 :: b1 :: b2 :: (1:Nat) :: b4 :: b5 :: b6 :: b7 :: b8 :: rest).take 9).getD
        3 0 = 1 := rfl
    have gd : (b0 :: b1 :: b2 :: (1:Nat) :: b4 :: b5 :: b6 :: b7 :: b8 :: rest).drop 9
        = rest := rfl
    rw [extract_http2_authority]
    rw [if_neg (by simp only [List.length_cons]; omega)]
    dsimp only
    rw [g0, g1, g2, g3, gd]
    rw [if_neg (by simp)]
    rw [if_neg (by omega)]
    rw [if_neg (by simp only [List.length_cons]; omega)]
    rw [hlit, hidx]

/-- Witness for C9: a non-HEADERS frame type, a zero-length payload, and
a 1-byte HEADERS payload on which both heuristics fail. -/
theorem c9_witness :
    extract_http2_authority [0, 0, 1, 2, 0, 0, 0, 0, 0, 9] = .error .Http2FrameError ∧
    extract_http2_authority [0, 0, 0, 1, 0, 0, 0, 0, 0] = .error .Http2FrameError ∧
    extract_http2_authority [0, 0, 1, 1, 0, 0, 0, 0, 0, 7] = .error .Http2FrameError :=
  ⟨c9_http2_authority.1 0 0 1 2 0 0 0 0 0 [9] (by decide),
   c9_http2_authority.2.1 0 0 0 0 0 0 0 0 [] (.inl rfl),
   c9_http2_authority.2.2 0 0 1 0 0 0 0 0 [7] (by decide) (by decide) (by decide) rfl rfl⟩

theorem extract_host_loop_found :
    ∀ (k : Nat) (chunks : List (List Nat)) (buffer : List Nat) (total he : Nat)
      (r : Option (List Nat)),
      1 ≤ k → k ≤ chunks.length →
      (∀ c ∈ chunks.take k, c ≠ []) →
      find_headers_end (buffer ++ (chunks.take k).flatten) = some he →
      (∀ j < k, find_headers_end (buffer ++ (chunks.take j).flatten) = none) →
      (∀ j, 1 ≤ j → j < k → total + ((chunks.take j).flatten).length ≤ 32768) →
      extract_host_header ((buffer ++ (chunks.take k).flatten).take he) = some r →
      extract_host_loop chunks buffer total =
        (match r with
         | some host => some (.ok (host, total + ((chunks.take k).flatten).length))
         | none => some (.error .NoHostHeader)) := by
  intro k
  induction k with
  | zero => intro chunks buffer total he r h1; omega
  | succ k ih =>
    intro chunks buffer total he r _ hlen hne hfind hnone hsize hhost
    match chunks, hlen with
    | c :: rest, hlen =>
      simp only [List.take_succ_cons, List.flatten_cons] at hfind hne hsize hhost
      rw [extract_host_loop]
      rw [if_neg (hne c (by simp))]
      dsimp only
      rcases Nat.eq_zero_or_pos k with hk0 | hkpos
      · subst hk0
        simp only [List.take_zero, List.flatten_nil, List.append_nil] at hfind hhost
        rw [hfind]
        dsimp only
        rw [hhost]
        rcases r with _ | host
        · rfl
        · dsimp only
          simp
      · have hn1 := hnone 1 (by omega)
        simp only [List.take_succ_cons, List.take_zero, List.flatten_cons,
          List.flatten_nil, List.append_nil] at hn1
        rw [hn1]
        have hs1 := hsize 1 (by omega) (by omega)
        simp only [List.take_succ_cons, List.take_zero, List.flatten_cons,
          List.flatten_nil, List.append_nil, List.length_append] at hs1
        rw [if_neg (by omega)]
        have := ih rest (buffer ++ c) (total + c.length) he r (by omega)
          (by simp at hlen; omega)
          (fun x hx => hne x (by simp [hx]))
          (by rw [← List.append_assoc] at hfind; exact hfind)
          (by
            intro j hj
            have := hnone (j + 1) (by omega)
            simp only [List.take_succ_cons, List.flatten_cons] at this
            rw [← List.append_assoc] at this
            exact this)
          (by
            intro j hj1 hj2
            have := hsize (j + 1) (by omega) (by omega)
            simp only [List.take_succ_cons, List.flatten_cons, List.length_append] at this
            omega)
          (by rw [← List.append_assoc] at hhost; exact hhost)
        rw [this]
        rcases r with _ | host
        · rfl
        · dsimp only
          simp only [List.take_succ_cons, List.flatten_cons, List.length_append]
          rw [show total + c.length + ((rest.take k).flatten).length
            = total + (c.length + ((rest.take k).flatten).length) from by omega]

theorem extract_host_loop_limit :
    ∀ (k : Nat) (chunks : List (List Nat)) (buffer : List Nat) (total : Nat),
      1 ≤ k → k ≤ chunks.length →
      (∀ c ∈ chunks.take k, c ≠ []) →
      (∀ j ≤ k, find_headers_end (buffer ++ (chunks.take j).flatten) = none) →
      (∀ j, 1 ≤ j → j < k → total + ((chunks.take j).flatten).length ≤ 32768) →
      total + ((chunks.take k).flatten).length > 32768 →
      extract_host_loop chunks buffer total = some (.error .InvalidRequest) := by
  intro k
  induction k with
  | zero => intro chunks buffer total h1; omega
  | succ k ih =>
    intro chunks buffer total _ hlen hne hnone hsize hbig
    match chunks, hlen with
    | c :: rest, hlen =>
      simp only [List.take_succ_cons, List.flatten_cons, List.length_append] at hne hsize hbig
      rw [extract_host_loop]
      rw [if_neg (hne c (by simp))]
      dsimp only
      have hn1 := hnone 1 (by omega)
      simp only [List.take_succ_cons, List.take_zero, List.flatten_cons,
        List.flatten_nil, List.append_nil] at hn1
      rw [hn1]
      rcases Nat.eq_zero_or_pos k with hk0 | hkpos
      · subst hk0
        simp only [List.take_zero, List.flatten_nil, List.length_nil] at hbig
        rw [if_pos (by omega)]
      · have hs1 := hsize 1 (by omega) (by omega)
        simp only [List.take_succ_cons, List.take_zero, List.flatten_cons,
          List.flatten_nil, List.append_nil] at hs1
        rw [if_neg (by omega)]
        exact ih rest (buffer ++ c) (total + c.length) (by omega)
          (by simp at hlen; omega)
          (fun x hx => hne x (by simp [hx]))
          (by
            intro j hj
            have := hnone (j + 1) (by omega)
            simp only [List.take_succ_cons, List.flatten_cons] at this
            rw [← List.append_assoc] at this
            exact this)
          (by
            intro j hj1 hj2
            have := hsize (j + 1) (by omega) (by omega)
            simp only [List.take_succ_cons, List.flatten_cons, List.length_append] at this
            omega)
          (by omega)

/-- C4 (amended): modelling the stream as the list of chunks the
successive reads deliver, when the terminator `\r\n\r\n` first becomes
visible after the k-th chunk (the running total having stayed within
32 KiB), `extract_host` returns the Host value scanned from the header
block together with a consumed count equal to the *total bytes read* —
the combined length of those k chunks, which may exceed the header
block's length — or fails `NoHostHeader` when the block has no `host:`
line; and it fails `InvalidRequest` when the running total exceeds
32 KiB before any terminator has been seen. -/
theorem c4_extract_host :
    (∀ (chunks : List (List Nat)) (k he : Nat) (host : List Nat),
      1 ≤ k → k ≤ chunks.length → (∀ c ∈ chunks.take k, c ≠ []) →
      find_headers_end ((chunks.take k).flatten) = some he →
      (∀ j < k, find_headers_end ((chunks.take j).flatten) = none) →
      (∀ j, 1 ≤ j → j < k → ((chunks.take j).flatten).length ≤ 32768) →
      extract_host_header (((chunks.take k).flatten).take he) = some (some host) →
      extract_host chunks = some (.ok (host, ((chunks.take k).flatten).length))) ∧
    (∀ (chunks : List (List Nat)) (k he : Nat),
      1 ≤ k → k ≤ chunks.length → (∀ c ∈ chunks.take k, c ≠ []) →
      find_headers_end ((chunks.take k).flatten) = some he →
      (∀ j < k, find_headers_end ((chunks.take j).flatten) = none) →
      (∀ j, 1 ≤ j → j < k → ((chunks.take j).flatten).length ≤ 32768) →
      extract_host_header (((chunks.take k).flatten).take he) = some none →
      extract_host chunks = some (.error .NoHostHeader)) ∧
    (∀ (chunks : List (List Nat)) (k : Nat),
      1 ≤ k → k ≤ chunks.length → (∀ c ∈ chunks.take k, c ≠ []) →
      (∀ j ≤ k, find_headers_end ((chunks.take j).flatten) = none) →
      (∀ j, 1 ≤ j → j < k → ((chunks.take j).flatten).length ≤ 32768) →
      ((chunks.take k).flatten).length > 32768 →
      extract_host chunks = some (.error .InvalidRequest)) := by
  refine ⟨?_, ?_, ?_⟩
  · intro chunks k he host h1 h2 h3 h4 h5 h6 h7
    have := extract_host_loop_found k chunks [] 0 he (some host) h1 h2 h3
      (by rw [List.nil_append]; exact h4)
      (by intro j hj; rw [List.nil_append]; exact h5 j hj)
      (by intro j hj1 hj2; rw [Nat.zero_add]; exact h6 j hj1 hj2)
      (by rw [List.nil_append]; exact h7)
    rw [extract_host, this]
    dsimp only
    rw [Nat.zero_add]
  · intro chunks k he h1 h2 h3 h4 h5 h6 h7
    have := extract_host_loop_found k chunks [] 0 he none h1 h2 h3
      (by rw [List.nil_append]; exact h4)
      (by intro j hj; rw [List.nil_append]; exact h5 j hj)
      (by intro j hj1 hj2; rw [Nat.zero_add]; exact h6 j hj1 hj2)
      (by rw [List.nil_append]; exact h7)
    rw [extract_host, this]
  · intro chunks k h1 h2 h3 h4 h5 h6
    exact extract_host_loop_limit k chunks [] 0 h1 h2 h3
      (by intro j hj; rw [List.nil_append]; exact h4 j hj)
      (by intro j hj1 hj2; rw [Nat.zero_add]; exact h5 j hj1 hj2)
      (by rw [Nat.zero_add]; exact h6)

theorem find_headers_end_none_of_no13 (l : List Nat) (h : ∀ x ∈ l, x ≠ 13) :
    find_headers_end l = none := by
  rw [find_headers_end]
  suffices hs : ∀ (l2 : List Nat), (∀ x ∈ l2, x ≠ 13) → ∀ i, fheScan l2 i = none by
    exact hs l h 0
  intro l2
  induction l2 with
  | nil => intro _ i; rfl
  | cons c rest ih =>
    intro hne i
    rw [fheScan]
    rw [if_neg (by
      intro hl
      rw [leadsWith, beq_iff_eq] at hl
      have h13 : (13 : Nat) ∈ (c :: rest).take ([13, 10, 13, 10] : List Nat).length := by
        rw [hl]
        simp
      exact hne 13 (List.mem_of_mem_take h13) rfl)]
    exact ih (fun x hx => hne x (by simp [hx])) (i + 1)

/-- Witness for C4: the three clauses at concrete streams — a single
chunk with trailing body bytes (Host found), a single chunk without a
`host:` line (`NoHostHeader`), and a single 32769-byte chunk with no
terminator (`InvalidRequest`). -/
theorem c4_witness :
    extract_host [hostChunkWithBody] = some (.ok ([104, 46, 99, 111, 109], 35)) ∧
    extract_host [[88, 13, 10, 13, 10]] = some (.error .NoHostHeader) ∧
    extract_host [List.replicate 32769 97] = some (.error .InvalidRequest) :=
  ⟨c4_extract_host.1 [hostChunkWithBody] 1 31 [104, 46, 99, 111, 109] (by omega)
      (by decide) (by decide) rfl
      (by intro j hj; rw [Nat.lt_one_iff] at hj; subst hj; rfl)
      (by omega) rfl,
   c4_extract_host.2.1 [[88, 13, 10, 13, 10]] 1 5 (by omega) (by decide) (by decide) rfl
      (by intro j hj; rw [Nat.lt_one_iff] at hj; subst hj; rfl)
      (by omega) rfl,
   c4_extract_host.2.2 [List.replicate 32769 97] 1 (by omega) (Nat.le_refl 1)
      (by
        intro c hc
        simp only [List.take_succ_cons, List.take_zero, List.mem_cons,
          List.not_mem_nil, or_false] at hc
        subst hc
        intro h0
        have hL := congrArg List.length h0
        rw [List.length_replicate] at hL
        simp at hL)
      (by
        intro j hj
        rcases Nat.eq_zero_or_pos j with hj0 | hj1
        · subst hj0
          rfl
        · have hj1' : j = 1 := by omega
          subst hj1'
          simp only [List.take_succ_cons, List.take_zero, List.flatten_cons,
            List.flatten_nil, List.append_nil]
          exact find_headers_end_none_of_no13 _
            (fun x hx => by rw [List.eq_of_mem_replicate hx]; omega))
      (by omega)
      (by
        simp only [List.take_succ_cons, List.take_zero, List.flatten_cons,
          List.flatten_nil, List.append_nil, List.length_replicate]
        omega)⟩

/-- Counterexample for C4 as stated: for the single-chunk stream
`GET / HTTP/1.1\r\nHost: h.com\r\n\r\nBODY`, the header block ends at
byte 31, but `extract_host` reports 35 consumed bytes — the whole chunk
that was read, including the 4 body bytes after the terminator — so the
consumed count is not the length of the first header block. -/
theorem c4_counterexample :
    extract_host [hostChunkWithBody] = some (.ok ([104, 46, 99, 111, 109], 35)) ∧
    find_headers_end hostChunkWithBody = some 31 ∧
    (35 : Nat) ≠ 31 :=
  ⟨rfl, rfl, by decide⟩
